import Mathlib

/-!
Verification development for the ddb-tools voice-bank utilities.

The Python sources are shallowly embedded as Lean functions over byte
buffers modelled as `List Nat` (each element one byte, `0 ≤ b < 256` for
buffers produced by the writers; readers are total on arbitrary lists,
mirroring `int.from_bytes`, which never fails).  Machine integers are
`Nat`/`Int`; `int.to_bytes(n, 'little')`, which raises `OverflowError`
on out-of-range values, is modelled either with an explicit range
hypothesis or by an `Option` result.  IEEE-754 float fields are carried
as their 4-byte little-endian images: the sources only transport these
bytes (`struct.unpack` directly followed by `struct.pack`), they never
compute with them.

Embedded sources:
  * `src/utils/ddi_utils.py` — primitives (`read_str`, `reverse_search`,
    `stream_reverse_search`) and the `DDIModel` section parsers
    `read_sta`, `read_art` / `read_art_block`, `read_vqm`, plus the
    `ddi_data_dict` conversion of `DDIModel.read`.
  * `src/mixins_ddb.py` — `byte_replace`, `_create_vqm_stream`, and the
    splice / DBV-bump tail of `mixins_vqm` (the same code is duplicated
    verbatim in `mixins_sta2vqm`), plus the SND copy step.
  * `src/pack_ddb.py` — the per-ARTp offset patch and the per-item pack
    loop around the `art_item["snd_cutoff"]` lookup.
  * `src/extract_wav.py` — the per-unit SND dump steps and the
    brute-force trailing scan.
-/

namespace DdbTools

/-! ## Byte-level primitives

`leVal` is `int.from_bytes(l, 'little')`; `natToLE len v` is
`v.to_bytes(len, 'little')` for `v < 256^len` (the Python call raises
`OverflowError` outside that range; theorems that rely on the encoding
carry the bound as a hypothesis).  `readBytesAt buf pos n` is the
`BytesIO.read(n)` result at absolute position `pos`: up to `n` bytes,
short at end of buffer. -/

def leVal (l : List Nat) : Nat := l.foldr (fun b acc => b + 256 * acc) 0

def natToLE : Nat → Nat → List Nat
  | 0, _ => []
  | n + 1, v => (v % 256) :: natToLE n (v / 256)

def readBytesAt (buf : List Nat) (pos n : Nat) : List Nat := (buf.drop pos).take n

def readU16 (buf : List Nat) (pos : Nat) : Nat := leVal (readBytesAt buf pos 2)

def readU32 (buf : List Nat) (pos : Nat) : Nat := leVal (readBytesAt buf pos 4)

def readU64 (buf : List Nat) (pos : Nat) : Nat := leVal (readBytesAt buf pos 8)

/-- In-place overwrite at `pos` (the `BytesIO.seek` + `write` pattern of
the sources; all uses stay inside the buffer). -/
def writeBytesAt (buf : List Nat) (pos : Nat) (bs : List Nat) : List Nat :=
  buf.take pos ++ bs ++ buf.drop (pos + bs.length)

/-- `read_str` of `ddi_utils.py`: u32 length then that many bytes;
returns the string bytes and the position after them. -/
def readStrAt (buf : List Nat) (pos : Nat) : List Nat × Nat :=
  let n := readU32 buf pos
  (readBytesAt buf (pos + 4) n, pos + 4 + n)

/-- `str_to_data` of `ddi_utils.py`: u32 length prefix then the bytes. -/
def strToData (s : List Nat) : List Nat := natToLE 4 s.length ++ s

/-- Leftmost occurrence of `pat` in `data` (`bytes.find`), as an
`Option`. -/
def findSub (data pat : List Nat) : Option Nat :=
  (List.range data.length).find? fun i => decide (readBytesAt data i pat.length = pat)

/-- `bytes.find` proper: `-1` when absent. -/
def findSubPy (data pat : List Nat) : Int :=
  match findSub data pat with
  | some i => (i : Int)
  | none => -1

/-- Clamp a Python (possibly negative) slice index to `[0, len]`. -/
def pyIdx (i : Int) (len : Nat) : Nat :=
  if i < 0 then ((len : Int) + i).toNat else min i.toNat len

/-! ASCII byte images of the tag literals used by the parsers. -/

def sndMagic : List Nat := [83, 78, 68, 32]       -- "SND "
def frm2Magic : List Nat := [70, 82, 77, 50]      -- "FRM2"
def arrTag : List Nat := [65, 82, 82, 32]         -- "ARR "
def staTag : List Nat := [83, 84, 65, 32]         -- "STA "
def stauTag : List Nat := [83, 84, 65, 117]       -- "STAu"
def stapTag : List Nat := [83, 84, 65, 112]       -- "STAp"
def artTag : List Nat := [65, 82, 84, 32]         -- "ART "
def artuTag : List Nat := [65, 82, 84, 117]       -- "ARTu"
def artpTag : List Nat := [65, 82, 84, 112]       -- "ARTp"
def vqmTag : List Nat := [86, 81, 77, 32]         -- "VQM "
def vqmuTag : List Nat := [86, 81, 77, 117]       -- "VQMu"
def vqmpTag : List Nat := [86, 81, 77, 112]       -- "VQMp"
def emptTag : List Nat := [69, 77, 80, 84]        -- "EMPT"
def strSND : List Nat := [83, 78, 68]             -- "SND"
def strEpR : List Nat := [69, 112, 82]            -- "EpR"
def strNormal : List Nat := [110, 111, 114, 109, 97, 108]                 -- "normal"
def strStationary : List Nat := [115, 116, 97, 116, 105, 111, 110, 97, 114, 121] -- "stationary"
def strArticulation : List Nat :=
  [97, 114, 116, 105, 99, 117, 108, 97, 116, 105, 111, 110]               -- "articulation"
def strDefault : List Nat := [100, 101, 102, 97, 117, 108, 116]           -- "default"
def strGROWL : List Nat := [71, 82, 79, 87, 76]   -- "GROWL"
def strVqm : List Nat := [118, 113, 109]          -- "vqm"

/-- `ddi_footer` of `mixins_ddb.py`: `b'\x05\x00\x00\x00' + "voice"`. -/
def ddiFooter : List Nat := [5, 0, 0, 0, 118, 111, 105, 99, 101]

/-! ## Chunk locator: `reverse_search` / `stream_reverse_search`
(`ddi_utils.py` lines 45-68)

Both functions run the same backward byte-at-a-time scan; the stream
variant reads through `seek`/`read` instead of slicing and resolves the
`limit = -1` default to 10 MiB (the in-memory variant's `-1` default
resolves to `offset - len(search)` and is not used by the claims).

`data[i:i+len(search)] == search` with Python slice semantics: a short
slice near the end never equals a non-empty `search`. -/

def matchAt (data pat : List Nat) (i : Nat) : Bool :=
  decide (readBytesAt data i pat.length = pat)

/-- The `for i in range(offset, 0, -1)` loop: `i` counts down from
`off = offset - len(search)` to 1; match test first, then the window
break `offset - i > limit`. -/
def revSearchFrom (data pat : List Nat) (off limit : Nat) : Nat → Int
  | 0 => -1
  | i + 1 =>
    if matchAt data pat (i + 1) then ((i + 1 : Nat) : Int)
    else if off - (i + 1) > limit then -1
    else revSearchFrom data pat off limit i

def reverseSearch (data pat : List Nat) (offset limit : Nat) : Int :=
  revSearchFrom data pat (offset - pat.length) limit (offset - pat.length)

def streamReverseSearch (data pat : List Nat) (offset : Nat) (limit : Int) : Int :=
  revSearchFrom data pat (offset - pat.length)
    (if limit = -1 then 10485760 else limit.toNat) (offset - pat.length)

/-! ## Frame-alignment table (`read_art_block`, `ddi_utils.py` 554-576) -/

/-- One V3 group: four u32s the source labels start, end, start2, end2. -/
structure AlignGroup where
  gStart : Nat
  gEnd : Nat
  gStart2 : Nat
  gEnd2 : Nat
deriving Repr, DecidableEq

inductive FrameAlign where
  | v3 : List AlignGroup → FrameAlign
  | v2 : List Nat → FrameAlign
deriving Repr, DecidableEq

def FrameAlign.isV3 : FrameAlign → Bool
  | .v3 _ => true
  | .v2 _ => false

/-- The V2 branch: `for i in range(0, len(align_bytes), 4)` collecting
`int.from_bytes(align_bytes[i:i+4])`. -/
def readV2List : List Nat → List Nat
  | [] => []
  | x :: xs => leVal ((x :: xs).take 4) :: readV2List (xs.drop 3)
termination_by l => l.length
decreasing_by
  simp only [List.length_drop, List.length_cons]
  omega

/-- The V3 branch: `align_group_num` sequential reads of four u32s from
a `BytesIO` over the bytes after the leading count (reads past the end
yield the empty byte string, hence value 0, exactly as `int.from_bytes`
of a short read). -/
def readV3Groups (body : List Nat) (n : Nat) : List AlignGroup :=
  (List.range n).map fun k =>
    { gStart := readU32 body (16 * k)
      gEnd := readU32 body (16 * k + 4)
      gStart2 := readU32 body (16 * k + 8)
      gEnd2 := readU32 body (16 * k + 12) }

/-- Lines 558-575 of `ddi_utils.py`.  `alignLength` is the Python value
`ddi_bytes.find(b'default') - 4` (an `int`, negative when `"default"`
sits within the first 4 window bytes), `alignBytes` the bytes actually
read; the branch test uses the declared length, not the byte count. -/
def parseFrameAlign (alignLength : Int) (alignBytes : List Nat) : FrameAlign :=
  if alignLength > 4 then
    .v3 (readV3Groups (alignBytes.drop 4) (readU32 alignBytes 0))
  else
    .v2 (readV2List alignBytes)

/-- The classification condition claimed by the specification (§4.2):
length > 4 and a leading count with `count*16 + 4 == length`. -/
def specV3Condition (alignBytes : List Nat) : Prop :=
  4 < alignBytes.length ∧ readU32 alignBytes 0 * 16 + 4 = alignBytes.length

instance (alignBytes : List Nat) : Decidable (specV3Condition alignBytes) := by
  unfold specV3Condition; infer_instance

/-! ## Brute-force trailing scan (`extract_wav.py` lines 497-557)

Windows of `buffer_len = 10240` bytes; after scanning a full window the
file position is reset to `buffer_offset + buffer_len - 4`, so
successive windows overlap by 4 bytes.  Scanning a window tests
`buffer[i:i+4] == b'SND '` for every `i`. -/

def bufferLen : Nat := 10240

def windowHits (o : Nat) (buffer : List Nat) : List Nat :=
  (List.range buffer.length).filterMap fun i =>
    if readBytesAt buffer i 4 = sndMagic then some (o + i) else none

def bruteScan (data : List Nat) (o : Nat) : List Nat :=
  if _h : data.length ≤ o then []
  else
    if (readBytesAt data o bufferLen).length < bufferLen then
      windowHits o (readBytesAt data o bufferLen)
    else
      windowHits o (readBytesAt data o bufferLen) ++ bruteScan data (o + (bufferLen - 4))
termination_by data.length - o
decreasing_by
  simp only [bufferLen] at *
  omega

/-! ## VQM block synthesiser (`_create_vqm_stream`, `mixins_ddb.py` 91-141) -/

/-- The `VQMMeta` record of `mixins_ddb.py`.  `unknown1` is the 10-byte
value of `str_to_bytes(vqm_meta["unknown1"])`; the five float fields are
carried as their 4-byte IEEE-754 little-endian images (the source round
trips them through `struct.unpack`/`struct.pack` unchanged).  `pitch1`
is present in the source record but never written by the synthesiser. -/
structure VQMMeta where
  idx : List Nat
  epr : List Nat
  snd_id : Nat
  snd : Nat
  unknown1 : List Nat
  pitch1 : List Nat
  pitch2 : List Nat
  unknown2 : List Nat
  unknown3 : List Nat
  dynamics : List Nat
deriving Repr, DecidableEq

/-- `struct.pack('<f', 224.0)`. -/
def f32Of224 : List Nat := [0, 0, 96, 67]

/-- Body of the `for vqm_meta in vqm_meta_list` loop (lines 109-136). -/
def createVqmEntry (m : VQMMeta) : List Nat :=
  List.replicate 8 255 ++ vqmpTag
    ++ natToLE 4 0 ++ natToLE 4 0 ++ natToLE 4 1
    ++ m.unknown1
    ++ f32Of224 ++ m.pitch2 ++ m.unknown2 ++ m.dynamics ++ m.unknown3
    ++ natToLE 4 0
    ++ List.replicate 4 255 ++ natToLE 4 m.epr.length
    ++ m.epr.flatMap (natToLE 8)
    ++ [0x44, 0xAC, 0x00, 0x00] ++ [0x01, 0x00]
    ++ natToLE 4 m.snd_id ++ natToLE 8 m.snd
    ++ List.replicate 16 255
    ++ strToData m.idx

/-- `_create_vqm_stream` (lines 91-141): header, per-entry records, then
the `"GROWL"` / `"vqm"` terminators. -/
def createVqmStream (metas : List VQMMeta) : List Nat :=
  List.replicate 8 255 ++ vqmTag
    ++ natToLE 4 0 ++ natToLE 4 1 ++ natToLE 4 0 ++ natToLE 4 1
    ++ List.replicate 8 255 ++ vqmuTag
    ++ natToLE 4 0 ++ natToLE 4 1 ++ natToLE 4 0
    ++ natToLE 4 metas.length ++ natToLE 4 metas.length
    ++ metas.flatMap createVqmEntry
    ++ strToData strGROWL ++ strToData strVqm

/-- The byte image prescribed by the specification, §4.6, written line
by line from its diagram:
`8×FF | "VQM " | 0 | 1 | 0 | 1 | 8×FF | "VQMu" | 0 | 1 | 0 | count |
count`, then per entry `8×FF | "VQMp" | 0 | 0 | 1 | prefix10bytes |
f32 224.0 | pitch2 | unknown2 | dynamics | unknown3 | 0 | 4×FF |
epr_count | epr offsets as u64 | 44 AC 00 00 | 01 00 | snd_id |
u64 snd_offset | 16×FF | idx string`, then the length-prefixed
`"GROWL"` and `"vqm"`. -/
def specVqmEntryImage (m : VQMMeta) : List Nat :=
  List.replicate 8 0xFF ++ [86, 81, 77, 112]
    ++ natToLE 4 0 ++ natToLE 4 0 ++ natToLE 4 1
    ++ m.unknown1
    ++ [0, 0, 96, 67] ++ m.pitch2 ++ m.unknown2 ++ m.dynamics ++ m.unknown3
    ++ natToLE 4 0
    ++ List.replicate 4 0xFF ++ natToLE 4 m.epr.length
    ++ m.epr.flatMap (natToLE 8)
    ++ [0x44, 0xAC, 0x00, 0x00] ++ [0x01, 0x00]
    ++ natToLE 4 m.snd_id ++ natToLE 8 m.snd
    ++ List.replicate 16 0xFF
    ++ (natToLE 4 m.idx.length ++ m.idx)

def specVqmImage (metas : List VQMMeta) : List Nat :=
  List.replicate 8 0xFF ++ [86, 81, 77, 32]
    ++ natToLE 4 0 ++ natToLE 4 1 ++ natToLE 4 0 ++ natToLE 4 1
    ++ List.replicate 8 0xFF ++ [86, 81, 77, 117]
    ++ natToLE 4 0 ++ natToLE 4 1 ++ natToLE 4 0
    ++ natToLE 4 metas.length ++ natToLE 4 metas.length
    ++ metas.flatMap specVqmEntryImage
    ++ (natToLE 4 5 ++ [71, 82, 79, 87, 76])
    ++ (natToLE 4 3 ++ [118, 113, 109])

/-! ## Offset-rewrite splice (`mixins_vqm`, `mixins_ddb.py` 227-250;
`mixins_sta2vqm` repeats the same lines verbatim at 351-374) -/

/-- `byte_replace` (line 35-36) for the non-negative offsets used by the
full-replace path. -/
def byteReplace (src : List Nat) (offset overrideLen : Nat) (repl : List Nat) : List Nat :=
  src.take offset ++ repl ++ src.drop (offset + overrideLen)

/-- `byte_replace` with Python slice semantics for a possibly negative
offset (the insert path passes the raw result of `bytes.find`, which is
`-1` when the footer is absent). -/
def byteReplacePy (src : List Nat) (offset overrideLen : Int) (repl : List Nat) : List Nat :=
  src.take (pyIdx offset src.length) ++ repl ++ src.drop (pyIdx (offset + overrideLen) src.length)

/-- The DBV bump (lines 238-246): read the u32 at `dbv.start + 0x18`,
add one, write it back in place.  `int.to_bytes(4)` raises on overflow,
modelled as `none`. -/
def bumpDbv (buf : List Nat) (dbvStart : Nat) : Option (List Nat) :=
  let c := readU32 buf (dbvStart + 0x18)
  if c + 1 < 2 ^ 32 then some (writeBytesAt buf (dbvStart + 0x18) (natToLE 4 (c + 1)))
  else none

/-- Lines 234-248 of `mixins_ddb.py`, the no-pre-existing-VQM splice:
given the source index bytes, the `dbv` section start and the
synthesised image, bump the DBV count and insert the image.  The footer
position is taken on the original bytes (line 235) and the replace
applied to the DBV-bumped bytes (line 248). -/
def mixinsSplice (srcBytes : List Nat) (dbvStart : Nat)
    (img : List Nat) : Option (List Nat) :=
  (bumpDbv srcBytes dbvStart).map fun b =>
    byteReplacePy b (findSubPy srcBytes ddiFooter) 0 img

/-- The confirmation guard of `mixins_vqm` (`mixins_ddb.py` line 160)
and `mixins_sta2vqm` (line 266) on the stripped lowered answer:
`choice != "y" or choice != ""` (the byte list `[121]` is `"y"`). -/
def promptGuard (choice : List Nat) : Bool :=
  !(choice == [121]) || !(choice == [])

/-- Control flow of `mixins_vqm` around the splice (`mixins_ddb.py`
156-161 and 231-248; `mixins_sta2vqm` repeats it at 262-267 and
355-372): when the recipient already has a VQM section the function
prompts and returns `None` at line 161 whenever the guard holds on the
answer, and only otherwise would lines 231-233 and 248 replace the
recorded `[vqm.start, vqm.end)` range with the image; without a VQM
section the splice of lines 234-248 runs. -/
def mixinsVqmResult (choice srcBytes : List Nat) (vqmRange : Option (Nat × Nat))
    (dbvStart : Nat) (img : List Nat) : Option (List Nat) :=
  match vqmRange with
  | some (s, e) =>
    if promptGuard choice then none
    else some (byteReplace srcBytes s (e - s) img)
  | none => mixinsSplice srcBytes dbvStart img

/-! ## Pack orchestrator: per-ARTp SND patch (`pack_ddb.py` 139-160)

Given the articulation chunk file and the two sites, the source stores
`ddb_snd_offset = ddb_f.tell() + 0x12` at the first site and
`ddb_snd_offset + offset2_delta` at the second (8 bytes each, written
back to back).  `int.to_bytes(8)` raises on a negative or too-large
value, modelled as `none`. -/
def packPatchArtSnd (ddi : List Nat) (sndSite : Nat) (newChunkStart : Nat)
    (offset2Delta : Int) : Option (List Nat) :=
  let v : Nat := newChunkStart + 0x12
  let v2 : Int := (v : Int) + offset2Delta
  if v < 2 ^ 64 ∧ 0 ≤ v2 ∧ v2 < 2 ^ 64 then
    some (writeBytesAt (writeBytesAt ddi sndSite (natToLE 8 v)) (sndSite + 8) (natToLE 8 v2.toNat))
  else none

/-- The logical offset the articulation parser stores for a `SND `
site: the raw u64 at the site minus the `0x12` header bias
(`ddi_utils.py` line 548). -/
def artSndLogicalAt (buf : List Nat) (site : Nat) : Int :=
  (readU64 buf site : Int) - 0x12

/-! ## Per-unit SND dump / copy steps (C8)

`extract_wav.py` 349-362 (articulation; the VQM loop at 468-480 is
byte-for-byte the same check): on a magic mismatch the source prints an
error and `continue`s to the next unit.  `mixins_ddb.py` 195-211: on a
magic mismatch the source raises, aborting the whole mix-in. -/

/-- One articulation/VQM dump step of `extract_wav.py`: `none` is the
printed-and-skipped unit.  On success: chunk length, sample rate,
channel count and the payload (`snd_length - 18` bytes after the
18-byte header; a declared length below 18 makes Python read the rest
of the file). -/
def extractArtSnd (ddb : List Nat) (sndOffset : Nat) : Option (Nat × Nat × Nat × List Nat) :=
  if readBytesAt ddb sndOffset 4 = sndMagic then
    let len := readU32 ddb (sndOffset + 4)
    let rate := readU32 ddb (sndOffset + 8)
    let ch := readU16 ddb (sndOffset + 12)
    let payload := if len < 18 then ddb.drop (sndOffset + 18)
      else readBytesAt ddb (sndOffset + 18) (len - 18)
    some (len, rate, ch, payload)
  else none

/-- The `for art_item in art_list` dump loop: failed units are skipped
(`continue`), the loop always runs to the end of the list. -/
def extractArtLoop (ddb : List Nat) (offsets : List Nat) : List (Nat × Nat × Nat × List Nat) :=
  offsets.filterMap (extractArtSnd ddb)

/-- One stationary dump step of `extract_wav.py` (423-440): backward
search with window `0x8000`; a miss (`-1`) is skipped (`continue`). -/
def extractStaSnd (ddb : List Nat) (declaredOffset : Nat) : Option (Nat × Nat × Nat × List Nat) :=
  let real := streamReverseSearch ddb sndMagic declaredOffset 0x8000
  if real = -1 then none
  else
    let ro := real.toNat
    let len := readU32 ddb (ro + 4)
    let rate := readU32 ddb (ro + 8)
    let ch := readU16 ddb (ro + 12)
    let payload := if len < 18 then ddb.drop (ro + 18)
      else readBytesAt ddb (ro + 18) (len - 18)
    some (len, rate, ch, payload)

/-- The SND copy step of `mixins_vqm` (`mixins_ddb.py` 195-211): a
magic mismatch raises `Exception("Mixins DDB file is broken")`. -/
def mixinsVqmCopySnd (ddb : List Nat) (sndOffset : Nat) : Except String (List Nat) :=
  if readBytesAt ddb sndOffset 4 = sndMagic then
    let len := readU32 ddb (sndOffset + 4)
    let sndBytes := readBytesAt ddb sndOffset len
    if sndBytes.take 4 = sndMagic then Except.ok sndBytes
    else Except.error "Mixins DDB file is broken"
  else Except.error "Mixins DDB file is broken"

/-! ## Association-list helpers

The source keeps its catalogue in Python dicts.  We model them as
association lists: `assocSet` is dict assignment (replace in place or
append), `assocHas` the `in ... .keys()` test, and `sortAssoc` the
`{k: d[k] for k in sorted(d.keys())}` reordering (ascending insertion
sort; all sorted key sets in the source are duplicate-free, so
stability is immaterial). -/

def assocSet {κ α : Type} [DecidableEq κ] : List (κ × α) → κ → α → List (κ × α)
  | [], k, v => [(k, v)]
  | (k0, v0) :: t, k, v => if k0 = k then (k, v) :: t else (k0, v0) :: assocSet t k v

def assocHas {κ α : Type} [DecidableEq κ] (l : List (κ × α)) (k : κ) : Bool :=
  l.any fun x => decide (x.1 = k)

def insertSorted {κ α : Type} (le : κ → κ → Bool) (x : κ × α) :
    List (κ × α) → List (κ × α)
  | [] => [x]
  | y :: ys => if le x.1 y.1 then x :: y :: ys else y :: insertSorted le x ys

def sortAssoc {κ α : Type} (le : κ → κ → Bool) : List (κ × α) → List (κ × α)
  | [] => []
  | x :: xs => insertSorted le x (sortAssoc le xs)

/-- Python `str` comparison restricted to the ASCII byte strings the
banks use (code-point lexicographic order). -/
def lexLe : List Nat → List Nat → Bool
  | [], _ => true
  | _ :: _, [] => false
  | x :: xs, y :: ys => if x < y then true else if y < x then false else lexLe xs ys

def natLe (a b : Nat) : Bool := a ≤ b

/-! ## Index parser: stationary section (`DDIModel.read_sta`,
`ddi_utils.py` 360-436)

Parsers are functions of the fixed index buffer and an absolute
position, returning `none` on any failed `assert` (an `AssertionError`
aborts the whole parse) and otherwise the parsed value plus the
position after it.  `BytesIO.read(n)` is `readBytesAt` (short at end of
buffer); positions advance by the requested count — past the end of the
buffer every further read is empty, exactly as at the clamped position,
and no successful section parse ever runs past the end (its non-empty
terminator strings could not match there).

Every recorded cross-reference (`epr` entries, `snd`) is kept as the
(site position, stored offset) data that the source packs into its
`"SITE=OFFSET"` hex strings. -/

/-- The `for k in range(epr_num)` site-recording loop (lines 409-413,
521-525, 533-538 and 634-637 are all this code): each step records the
current position and the u64 read there. -/
def readEprList (buf : List Nat) : Nat → Nat → List (Nat × Nat) × Nat
  | pos, 0 => ([], pos)
  | pos, n + 1 =>
    let rest := readEprList buf (pos + 8) n
    ((pos, readU64 buf pos) :: rest.1, rest.2)

/-- A `STAp` record (lines 381-428).  Float fields are 4-byte images. -/
structure Stap where
  unknown1 : List Nat
  pitch1 : List Nat
  pitch2 : List Nat
  unknown2 : List Nat
  dynamics : List Nat
  unknown3 : List Nat
  sndLength : Nat
  epr : List (Nat × Nat)
  fs : Nat
  sndId : Nat
  sndSite : Nat
  sndOffset : Nat
  unknown4 : List Nat
deriving Repr, DecidableEq

/-- Lines 381-428: one `STAp`.  Returns the trailing index string (the
dict key checked and inserted by the caller), the record, and the end
position. -/
def readStap (buf : List Nat) (p0 : Nat) : Option ((List Nat × Stap) × Nat) :=
  let s1 := readStrAt buf (p0 + 78)          -- read_str == 'SND'
  let a := s1.2
  let s2 := readStrAt buf (a + 16)           -- read_str == 'EpR'
  let b := s2.2
  let eprR := readEprList buf (b + 8) (readU32 buf (b + 4))
  let c := eprR.2
  let s3 := readStrAt buf (c + 34)           -- stap_idx
  if readU64 buf p0 = 0 ∧ readBytesAt buf (p0 + 8) 4 = stapTag ∧
      readU32 buf (p0 + 16) = 0 ∧ readU32 buf (p0 + 20) = 1 ∧
      readU32 buf (p0 + 54) = 0 ∧ readU32 buf (p0 + 58) = 2 ∧
      readU64 buf (p0 + 62) = 0x3D ∧ readBytesAt buf (p0 + 70) 4 = emptTag ∧
      s1.1 = strSND ∧ readU32 buf (a + 4) = 0 ∧
      readBytesAt buf (a + 8) 4 = emptTag ∧ s2.1 = strEpR ∧
      readBytesAt buf (c + 4) 2 = [1, 0] then
    some ((s3.1,
      { unknown1 := readBytesAt buf (p0 + 24) 10
        pitch1 := readBytesAt buf (p0 + 34) 4
        pitch2 := readBytesAt buf (p0 + 38) 4
        unknown2 := readBytesAt buf (p0 + 42) 4
        dynamics := readBytesAt buf (p0 + 46) 4
        unknown3 := readBytesAt buf (p0 + 50) 4
        sndLength := readU32 buf a
        epr := eprR.1
        fs := readU32 buf c
        sndId := readU32 buf (c + 6)
        sndSite := c + 10
        sndOffset := readU64 buf (c + 10)
        unknown4 := readBytesAt buf (c + 18) 16 }), s3.2)
  else none

/-- The `for j in range(stap_num)` loop with its duplicate-key assert
(line 427). -/
def readStaps (buf : List Nat) : Nat → Nat → List (List Nat × Stap) →
    Option (List (List Nat × Stap) × Nat)
  | 0, pos, acc => some (acc, pos)
  | n + 1, pos, acc =>
    match readStap buf pos with
    | none => none
    | some ((idx, st), p1) =>
      if assocHas acc idx then none
      else readStaps buf n p1 (acc ++ [(idx, st)])

structure Stau where
  phoneme : List Nat
  stap : List (List Nat × Stap)
deriving Repr, DecidableEq

/-- Lines 371-432: one `STAu` (header, `STAp` children, trailing
phoneme string; children re-sorted by their string key). -/
def readStau (buf : List Nat) (q : Nat) : Option ((Nat × Stau) × Nat) :=
  if readU64 buf q = 0 ∧ readBytesAt buf (q + 8) 4 = stauTag ∧
      readU32 buf (q + 16) = 1 ∧ readU32 buf (q + 20) = 0 ∧
      readBytesAt buf (q + 28) 8 = List.replicate 8 255 then
    match readStaps buf (readU32 buf (q + 36)) (q + 40) [] with
    | none => none
    | some (staps, p1) =>
      let ph := readStrAt buf p1
      some ((readU32 buf (q + 24), { phoneme := ph.1, stap := sortAssoc lexLe staps }), ph.2)
  else none

/-- The `for i in range(stau_num)` loop; `sta_data[stau_idx] = ...` is
dict assignment. -/
def readStaus (buf : List Nat) : Nat → Nat → List (Nat × Stau) →
    Option (List (Nat × Stau) × Nat)
  | 0, pos, acc => some (acc, pos)
  | n + 1, pos, acc =>
    match readStau buf pos with
    | none => none
    | some ((i, u), p1) => readStaus buf n p1 (assocSet acc i u)

/-- `read_sta` (lines 360-436), entered at the position the orchestrator
seeks to. -/
def readSta (buf : List Nat) (pos : Nat) : Option (List (Nat × Stau) × Nat) :=
  if readU64 buf pos = 0 ∧ readBytesAt buf (pos + 8) 4 = arrTag ∧
      readU64 buf (pos + 16) = 1 ∧ readU32 buf (pos + 24) = 1 ∧
      readU64 buf (pos + 28) = 0 ∧ readBytesAt buf (pos + 36) 4 = staTag ∧
      readU64 buf (pos + 44) = 1 then
    match readStaus buf (readU32 buf (pos + 52)) (pos + 56) [] with
    | none => none
    | some (staus, p1) =>
      let t1 := readStrAt buf p1
      let t2 := readStrAt buf t1.2
      if t1.1 = strNormal ∧ t2.1 = strStationary then
        some (sortAssoc natLe staus, t2.2)
      else none
  else none

/-! ## Index parser: articulation section (`DDIModel.read_art` /
`read_art_block`, `ddi_utils.py` 439-595) -/

/-- An `ARTp` record (lines 486-581).  `sndLogical`/`snd2Logical` are
the values the source stores in its `snd`/`snd_start` strings: the raw
u64 at the site minus `0x12` (lines 548 and 552), a Python `int` that
may be negative. -/
structure Artp where
  devArtp : Nat
  unknown1 : List Nat
  pitch1 : List Nat
  pitch2 : List Nat
  unknown2 : List Nat
  dynamics : List Nat
  unknown3 : List Nat
  artpIdx : Nat
  sndUnknown : Nat
  epr : List (Nat × Nat)
  fs : Nat
  sndId : Nat
  sndSite : Nat
  sndLogical : Int
  snd2Site : Nat
  snd2Logical : Int
  frameAlign : FrameAlign
deriving Repr, DecidableEq

/-- Continuation of the `ARTp` parse after the EpR block (lines
543-581), shared by the two `try`/`except` branches: SND identifier and
the two biased `SND ` references, then the frame-alignment table
delimited by `find(b'default') - 4` within the next 1024 bytes, then
the `'default'` string.  When `"default"` is absent, or within the
first four window bytes, the subsequent `read_str == 'default'` assert
can only fail (the stream is then at end of buffer), so the parse is
`none`.  `epr` is the recorded site list plus the position after it. -/
def readArtpCont (buf : List Nat) (p0 a : Nat) (epr : List (Nat × Nat) × Nat) :
    Option (Artp × Nat) :=
  let c := epr.2
  let r := c + 26                            -- after fs, 01 00, snd_id, snd, snd_start
  match findSub (readBytesAt buf r 1024) strDefault with
  | none => none
  | some f =>
    if f < 4 then none
    else
      let alignBytes := readBytesAt buf r (f - 4)
      let s3 := readStrAt buf (r + (f - 4))
      if s3.1 = strDefault then
        some ({ devArtp := readU64 buf p0
                unknown1 := readBytesAt buf (p0 + 24) 10
                pitch1 := readBytesAt buf (p0 + 34) 4
                pitch2 := readBytesAt buf (p0 + 38) 4
                unknown2 := readBytesAt buf (p0 + 42) 4
                dynamics := readBytesAt buf (p0 + 46) 4
                unknown3 := readBytesAt buf (p0 + 50) 4
                artpIdx := readU64 buf (p0 + 58)
                sndUnknown := readU32 buf a
                epr := epr.1
                fs := readU32 buf c
                sndId := readU32 buf (c + 6)
                sndSite := c + 10
                sndLogical := (readU64 buf (c + 10) : Int) - 0x12
                snd2Site := c + 18
                snd2Logical := (readU64 buf (c + 18) : Int) - 0x12
                frameAlign := parseFrameAlign ((f : Int) - 4) alignBytes }, s3.2)
      else none

/-- Lines 486-581: one `ARTp`.  The `try`/`except AssertionError` pair
at 518-541 first parses the EpR block without the 4 skipped bytes; only
its final `read(2) == b'\x01\x00'` assert can raise, and on failure the
source seeks back and re-parses with the 4-byte skip. -/
def readArtp (buf : List Nat) (p0 : Nat) : Option (Artp × Nat) :=
  let s1 := readStrAt buf (p0 + 74)          -- read_str == 'SND'
  let a := s1.2
  let s2 := readStrAt buf (a + 16)           -- read_str == 'EpR'
  let loc := s2.2
  -- branch A: epr_num immediately at loc
  let eprA := readEprList buf (loc + 4) (readU32 buf loc)
  -- branch B: 4 bytes skipped, epr_num at loc + 4
  let eprB := readEprList buf (loc + 8) (readU32 buf (loc + 4))
  if readBytesAt buf (p0 + 8) 4 = artpTag ∧
      readU32 buf (p0 + 16) = 0 ∧ readU32 buf (p0 + 20) = 1 ∧
      readU32 buf (p0 + 54) = 2 ∧
      readBytesAt buf (p0 + 66) 4 = emptTag ∧ s1.1 = strSND ∧
      readU32 buf (a + 4) = 0 ∧ readBytesAt buf (a + 8) 4 = emptTag ∧
      s2.1 = strEpR then
    if readBytesAt buf (eprA.2 + 4) 2 = [1, 0] then readArtpCont buf p0 a eprA
    else if readBytesAt buf (eprB.2 + 4) 2 = [1, 0] then readArtpCont buf p0 a eprB
    else none
  else none

/-- The `for j in range(artp_num)` loop with its duplicate-key assert
(line 580); the key is the u64 `artp_idx` read inside the record. -/
def readArtps (buf : List Nat) : Nat → Nat → List (Nat × Artp) →
    Option (List (Nat × Artp) × Nat)
  | 0, pos, acc => some (acc, pos)
  | n + 1, pos, acc =>
    match readArtp buf pos with
    | none => none
    | some (p, p1) =>
      if assocHas acc p.artpIdx then none
      else readArtps buf n p1 (acc ++ [(p.artpIdx, p)])

structure Artu where
  phoneme : List Nat
  artp : List (Nat × Artp)
deriving Repr, DecidableEq

/-- An `ART ` block: phoneme, `ARTu` children, nested `ART ` children
(triphonemes).  The source deletes empty `artu`/`art` dict keys; here
presence is simply non-emptiness of the list. -/
inductive Art where
  | mk : List Nat → List (Nat × Artu) → List (Nat × Art) → Art

def Art.phoneme : Art → List Nat
  | .mk p _ _ => p

def Art.artu : Art → List (Nat × Artu)
  | .mk _ u _ => u

def Art.sub : Art → List (Nat × Art)
  | .mk _ _ s => s

mutual
/-- `read_art_block` (lines 458-595).  The recursion is fueled: the
Python recursion is bounded only by the buffer, and a fuel of
`buf.length` always suffices since every child consumes bytes. -/
def readArtBlock (buf : List Nat) : Nat → Nat → Option ((Nat × Art) × Nat)
  | 0, _ => none
  | fuel + 1, pos =>
    if readU32 buf (pos + 4) = 1 ∧ readU32 buf (pos + 8) = 0 then
      match readArtChildren buf fuel (readU32 buf (pos + 16)) (pos + 20) [] [] with
      | none => none
      | some ((artus, subs), p1) =>
        let ph := readStrAt buf p1
        some ((readU32 buf (pos + 12),
          Art.mk ph.1 (sortAssoc natLe artus) (sortAssoc natLe subs)), ph.2)
    else none

/-- The `for i in range(artu_num)` child loop (lines 466-585): each
child is an 8-byte zero sentinel plus a tag, a nested `ART ` block
(recursing, stored under `art`) or an `ARTu` unit. -/
def readArtChildren (buf : List Nat) : Nat → Nat → Nat → List (Nat × Artu) →
    List (Nat × Art) → Option ((List (Nat × Artu) × List (Nat × Art)) × Nat)
  | 0, _, _, _, _ => none
  | _ + 1, 0, pos, accU, accA => some ((accU, accA), pos)
  | fuel + 1, n + 1, pos, accU, accA =>
    if readU64 buf pos = 0 then
      if readBytesAt buf (pos + 8) 4 = artTag then
        match readArtBlock buf fuel (pos + 12) with
        | none => none
        | some ((si, sa), p1) => readArtChildren buf fuel n p1 accU (assocSet accA si sa)
      else if readBytesAt buf (pos + 8) 4 = artuTag then
        if readU32 buf (pos + 16) = 0 ∧ readU32 buf (pos + 20) = 0 ∧
            (readU64 buf (pos + 28) = 0 ∨ readU64 buf (pos + 28) = 1) ∧
            readBytesAt buf (pos + 40) 4 = List.replicate 4 255 then
          match readArtps buf (readU32 buf (pos + 44)) (pos + 48) [] with
          | none => none
          | some (artps, p1) =>
            let ph := readStrAt buf p1
            readArtChildren buf fuel n ph.2
              (assocSet accU (readU32 buf (pos + 24))
                { phoneme := ph.1, artp := sortAssoc natLe artps }) accA
        else none
      else none
    else none
end

/-- The `while True` section loop of `read_art` (lines 443-452): an
8-byte sentinel that is neither all-zero nor all-`FF` terminates the
section at the `'articulation'` string. -/
def readArtSection (buf : List Nat) : Nat → Nat → List (Nat × Art) →
    Option (List (Nat × Art) × Nat)
  | 0, _, _ => none
  | fuel + 1, pos, acc =>
    if readBytesAt buf pos 8 ≠ List.replicate 8 0 ∧
        readBytesAt buf pos 8 ≠ List.replicate 8 255 then
      let s := readStrAt buf pos
      if s.1 = strArticulation then some (acc, s.2) else none
    else
      if readBytesAt buf (pos + 8) 4 = artTag then
        match readArtBlock buf fuel (pos + 12) with
        | none => none
        | some ((i, a), p1) => readArtSection buf fuel p1 (assocSet acc i a)
      else none

/-- `read_art` (lines 439-455). -/
def readArt (buf : List Nat) (fuel pos : Nat) : Option (List (Nat × Art) × Nat) :=
  if readBytesAt buf (pos + 8) 4 = arrTag ∧ readU64 buf (pos + 16) = 1 ∧
      readU32 buf (pos + 24) ≠ 0 then
    match readArtSection buf fuel (pos + 28) [] with
    | none => none
    | some (arts, p1) => some (sortAssoc natLe arts, p1)
  else none

/-! ## Index parser: VQM section (`DDIModel.read_vqm`,
`ddi_utils.py` 598-650) -/

structure Vqmp where
  unknown1 : List Nat
  pitch1 : List Nat
  pitch2 : List Nat
  unknown2 : List Nat
  dynamics : List Nat
  unknown3 : List Nat
  epr : List (Nat × Nat)
  fs : Nat
  sndId : Nat
  sndSite : Nat
  sndOffset : Nat
deriving Repr, DecidableEq

/-- `int(read_str(...))` for the decimal index strings keying `VQMp`
entries (`int` on any non-digit raises, aborting the parse; signs and
whitespace never occur in these keys). -/
def parseDecimalAux : List Nat → Nat → Option Nat
  | [], acc => some acc
  | d :: ds, acc =>
    if 48 ≤ d ∧ d ≤ 57 then parseDecimalAux ds (acc * 10 + (d - 48)) else none

def parseDecimal (s : List Nat) : Option Nat :=
  if s.isEmpty then none else parseDecimalAux s 0

/-- Lines 616-647: one `VQMp`. -/
def readVqmp (buf : List Nat) (r : Nat) : Option ((Nat × Vqmp) × Nat) :=
  let eprR := readEprList buf (r + 66) (readU32 buf (r + 62))
  let c := eprR.2
  let s := readStrAt buf (c + 34)
  if readBytesAt buf r 8 = List.replicate 8 255 ∧
      readBytesAt buf (r + 8) 4 = vqmpTag ∧
      readU32 buf (r + 12) = 0 ∧ readU32 buf (r + 16) = 0 ∧
      readU32 buf (r + 20) = 1 ∧ readU32 buf (r + 54) = 0 ∧
      readBytesAt buf (r + 58) 4 = List.replicate 4 255 ∧
      readBytesAt buf (c + 4) 2 = [1, 0] ∧
      readBytesAt buf (c + 18) 16 = List.replicate 16 255 then
    match parseDecimal s.1 with
    | none => none
    | some idx =>
      some ((idx,
        { unknown1 := readBytesAt buf (r + 24) 10
          pitch1 := readBytesAt buf (r + 34) 4
          pitch2 := readBytesAt buf (r + 38) 4
          unknown2 := readBytesAt buf (r + 42) 4
          dynamics := readBytesAt buf (r + 46) 4
          unknown3 := readBytesAt buf (r + 50) 4
          epr := eprR.1
          fs := readU32 buf c
          sndId := readU32 buf (c + 6)
          sndSite := c + 10
          sndOffset := readU64 buf (c + 10) }), s.2)
  else none

def readVqmps (buf : List Nat) : Nat → Nat → List (Nat × Vqmp) →
    Option (List (Nat × Vqmp) × Nat)
  | 0, pos, acc => some (acc, pos)
  | n + 1, pos, acc =>
    match readVqmp buf pos with
    | none => none
    | some ((i, v), p1) => readVqmps buf n p1 (assocSet acc i v)

/-- `read_vqm` (lines 598-650). -/
def readVqm (buf : List Nat) (pos : Nat) : Option (List (Nat × Vqmp) × Nat) :=
  if readBytesAt buf pos 8 = List.replicate 8 255 ∧
      readBytesAt buf (pos + 8) 4 = vqmTag ∧
      readU32 buf (pos + 12) = 0 ∧ readU32 buf (pos + 16) = 1 ∧
      readU32 buf (pos + 20) = 0 ∧ readU32 buf (pos + 24) = 1 ∧
      readBytesAt buf (pos + 28) 8 = List.replicate 8 255 ∧
      readBytesAt buf (pos + 36) 4 = vqmuTag ∧
      readU32 buf (pos + 40) = 0 ∧ readU32 buf (pos + 44) = 1 ∧
      readU32 buf (pos + 48) = 0 ∧
      readU32 buf (pos + 56) = readU32 buf (pos + 52) then
    match readVqmps buf (readU32 buf (pos + 52)) (pos + 60) [] with
    | none => none
    | some (entries, p1) =>
      let t1 := readStrAt buf p1
      let t2 := readStrAt buf t1.2
      if t1.1 = strGROWL ∧ t2.1 = strVqm then some (entries, t2.2) else none
  else none

/-! ## Recorded FRM2 site collectors

The claims quantify over "every recorded FRM2 cross-reference site" of
a parsed catalogue; these collect the `(site, offset)` pairs out of the
parsed structures. -/

def staEprSites (d : List (Nat × Stau)) : List (Nat × Nat) :=
  d.flatMap fun u => u.2.stap.flatMap fun s => s.2.epr

def vqmEprSites (d : List (Nat × Vqmp)) : List (Nat × Nat) :=
  d.flatMap fun v => v.2.epr

def Artu.eprSites (u : Artu) : List (Nat × Nat) :=
  u.artp.flatMap fun p => p.2.epr

mutual
def Art.eprSites : Art → List (Nat × Nat)
  | .mk _ us subs => (us.flatMap fun u => u.2.eprSites) ++ artListEprSites subs

def artListEprSites : List (Nat × Art) → List (Nat × Nat)
  | [] => []
  | (_, a) :: t => a.eprSites ++ artListEprSites t
end

def artEprSites (d : List (Nat × Art)) : List (Nat × Nat) := artListEprSites d

/-! ## `ddi_data_dict` conversion and pack loop (C10)

`DDIModel.read` lines 215-239 convert the articulation tree into flat
per-phoneme dicts whose keys are exactly `snd`, `snd_start`, `epr`,
`pitch`; `pack_ddb.py` lines 98-160 then look up `art_item["snd"]` and
`art_item["snd_cutoff"]`.  Dict values are modelled structurally (the
source's `"SITE=OFFSET_ID"` hex strings become their components). -/

inductive DVal where
  | ref : Nat → Int → Nat → DVal
  | eprL : List (Nat × Nat) → DVal
  | fbytes : List Nat → DVal
deriving Repr, DecidableEq

/-- The dict literal of `ddi_utils.py` lines 222-225 (and 234-237). -/
def artpToDict (p : Artp) : List (String × DVal) :=
  [("snd", .ref p.sndSite p.sndLogical p.sndId),
   ("snd_start", .ref p.snd2Site p.snd2Logical p.sndId),
   ("epr", .eprL p.epr),
   ("pitch", .fbytes p.pitch1)]

/-- The per-`ARTu` dict list `[{'snd': …, 'snd_start': …, 'epr': …,
'pitch': …}, …]` built by the conversion loops. -/
def artuEntryVal (u : Artu) : List (List (String × DVal)) :=
  u.artp.map fun pp => artpToDict pp.2

/-- One `for artu in …['artu'].values()` loop of the conversion:
`art_dict[keyPre + artu_phoneme] = [...]`. -/
def addArtus (keyPre : List Nat) (acc : List (List Nat × List (List (String × DVal))))
    (us : List (Nat × Artu)) : List (List Nat × List (List (String × DVal))) :=
  us.foldl (fun ac pu => assocSet ac (keyPre ++ pu.2.phoneme) (artuEntryVal pu.2)) acc

/-- The `ddi_data_dict['art']` construction (lines 215-239): two-deep
keys `art.phoneme + ' ' + artu.phoneme` and three-deep keys
`art.phoneme + ' ' + sub.phoneme + ' ' + artu.phoneme`,
`art_dict[key] = [...]` dict assignment, then key-sorted. -/
def artDictEntries (arts : List (Nat × Art)) :
    List (List Nat × List (List (String × DVal))) :=
  let step := fun (acc : List (List Nat × List (List (String × DVal)))) (pa : Nat × Art) =>
    let a := pa.2
    let acc1 := addArtus (a.phoneme ++ [32]) acc a.artu
    a.sub.foldl (fun ac ps =>
      addArtus (a.phoneme ++ [32] ++ ps.2.phoneme ++ [32]) ac ps.2.artu) acc1
  sortAssoc lexLe (arts.foldl step [])

/-- `art_item[k]`: a missing key raises `KeyError`. -/
def getKey (d : List (String × DVal)) (k : String) : Except String DVal :=
  match d.find? fun x => decide (x.1 = k) with
  | some x => Except.ok x.2
  | none => Except.error ("KeyError: " ++ k)

/-- The `art_item["epr"]` list as the pack loop reads it. -/
def eprOf (d : List (String × DVal)) : List (Nat × Nat) :=
  match getKey d "epr" with
  | .ok (.eprL l) => l
  | _ => []

def DVal.logical : DVal → Int
  | .ref _ lo _ => lo
  | _ => 0

/-- The per-item EpR streaming loop of `pack_ddb.py` (lines 103-123):
the FRM2 chunks written so far plus a success flag (a magic mismatch
raises, aborting the pack). -/
def packEprLoop (artBytes : List Nat) : List (Nat × Nat) → List (List Nat) × Bool
  | [] => ([], true)
  | (_, off) :: rest =>
    if readBytesAt artBytes off 4 = frm2Magic then
      let r := packEprLoop artBytes rest
      (readBytesAt artBytes off (readU32 artBytes (off + 4)) :: r.1, r.2)
    else ([], false)

/-- One iteration of the pack loop over `art_items` (`pack_ddb.py`
98-160): stream the EpR chunks, then look up `art_item["snd"]` (line
125) and `art_item["snd_cutoff"]` (line 128), then copy the SND chunk.
Returns the FRM2 chunks written before any failure, and either the SND
chunk bytes or the raised error.  (The in-place index offset writes of
lines 122-123 and 158-160 are `packPatchArtSnd` above.) -/
def packArtItem (artBytes : List Nat) (d : List (String × DVal)) :
    List (List Nat) × Except String (List Nat) :=
  match getKey d "epr" with
  | .error e => ([], .error e)
  | .ok v =>
    let eprs := match v with | .eprL l => l | _ => []
    let w := packEprLoop artBytes eprs
    if w.2 = false then (w.1, .error "Articulation file is broken")
    else
      match getKey d "snd" with
      | .error e => (w.1, .error e)
      | .ok vSnd =>
        match getKey d "snd_cutoff" with
        | .error e => (w.1, .error e)
        | .ok _ =>
          if vSnd.logical < 0 then (w.1, .error "seek to negative offset")
          else
            let so := vSnd.logical.toNat
            if readBytesAt artBytes so 4 = sndMagic then
              let sndBytes := readBytesAt artBytes so (readU32 artBytes (so + 4))
              if sndBytes.take 4 = sndMagic then (w.1, .ok sndBytes)
              else (w.1, .error "Articulation file is broken")
            else (w.1, .error "Articulation file is broken")

/-- The `for i in range(0, len(art_items))` loop: a raised exception
aborts the whole pack, so processing stops at the first failing item.
Result: FRM2 chunks written, SND chunks written, final status. -/
def packArtLoop (artBytes : List Nat) : List (List (String × DVal)) →
    List (List Nat) × List (List Nat) × Except String Unit
  | [] => ([], [], .ok ())
  | d :: rest =>
    let r := packArtItem artBytes d
    match r.2 with
    | .error e => (r.1, [], .error e)
    | .ok snd =>
      let t := packArtLoop artBytes rest
      (r.1 ++ t.1, snd :: t.2.1, t.2.2)

/-! ## Concrete demonstration buffers

Hand-assembled minimal section images that the embedded parsers accept;
used by the witness theorems to show the hypotheses of the claims are
satisfiable. -/

/-- A minimal `STA ` section: one `STAu` (phoneme "a") holding one
`STAp` with a single EpR reference. -/
def demoStaBuf : List Nat :=
  List.replicate 8 0 ++ arrTag ++ List.replicate 4 0 ++ natToLE 8 1 ++ natToLE 4 1
    ++ List.replicate 8 0 ++ staTag ++ List.replicate 4 0 ++ natToLE 8 1 ++ natToLE 4 1
    ++ List.replicate 8 0 ++ stauTag ++ List.replicate 4 0 ++ natToLE 4 1 ++ natToLE 4 0
    ++ natToLE 4 0 ++ List.replicate 8 255 ++ natToLE 4 1
    ++ List.replicate 8 0 ++ stapTag ++ List.replicate 4 0 ++ natToLE 4 0 ++ natToLE 4 1
    ++ List.replicate 10 0 ++ List.replicate 20 0
    ++ natToLE 4 0 ++ natToLE 4 2 ++ natToLE 8 0x3D
    ++ emptTag ++ List.replicate 4 0 ++ strToData strSND
    ++ natToLE 4 16 ++ natToLE 4 0 ++ emptTag ++ List.replicate 4 0 ++ strToData strEpR
    ++ List.replicate 4 255 ++ natToLE 4 1 ++ natToLE 8 0x1234
    ++ natToLE 4 44100 ++ [1, 0] ++ natToLE 4 2 ++ natToLE 8 0x5678
    ++ List.replicate 16 0 ++ strToData [48]
    ++ strToData [97]
    ++ strToData strNormal ++ strToData strStationary

/-- A minimal `VQM ` section: one `VQMp` (index "0") with a single EpR
reference. -/
def demoVqmBuf : List Nat :=
  List.replicate 8 255 ++ vqmTag
    ++ natToLE 4 0 ++ natToLE 4 1 ++ natToLE 4 0 ++ natToLE 4 1
    ++ List.replicate 8 255 ++ vqmuTag
    ++ natToLE 4 0 ++ natToLE 4 1 ++ natToLE 4 0 ++ natToLE 4 1 ++ natToLE 4 1
    ++ List.replicate 8 255 ++ vqmpTag
    ++ natToLE 4 0 ++ natToLE 4 0 ++ natToLE 4 1
    ++ List.replicate 10 0 ++ List.replicate 20 0
    ++ natToLE 4 0 ++ List.replicate 4 255
    ++ natToLE 4 1 ++ natToLE 8 0xAB
    ++ natToLE 4 44100 ++ [1, 0] ++ natToLE 4 9 ++ natToLE 8 0x77
    ++ List.replicate 16 255 ++ strToData [48]
    ++ strToData strGROWL ++ strToData strVqm

/-- A minimal `ARTp` record (branch-A EpR block, one EpR reference, a
V2 frame-alignment table of one u32). -/
def demoArtpBytes : List Nat :=
  natToLE 8 0 ++ artpTag ++ List.replicate 4 0 ++ natToLE 4 0 ++ natToLE 4 1
    ++ List.replicate 10 0 ++ List.replicate 20 0
    ++ natToLE 4 2 ++ natToLE 8 5
    ++ emptTag ++ List.replicate 4 0 ++ strToData strSND ++ natToLE 4 0
    ++ natToLE 4 0 ++ emptTag ++ List.replicate 4 0 ++ strToData strEpR
    ++ natToLE 4 1 ++ natToLE 8 0xCD
    ++ natToLE 4 44100 ++ [1, 0] ++ natToLE 4 4 ++ natToLE 8 0x100012 ++ natToLE 8 0x100812
    ++ natToLE 4 2 ++ strToData strDefault

/-- A minimal `ART ` section: one `ART ` block (phoneme "a") holding
one `ARTu` (phoneme "b") with the `ARTp` above. -/
def demoArtBuf : List Nat :=
  List.replicate 8 0 ++ arrTag ++ List.replicate 4 0 ++ natToLE 8 1 ++ natToLE 4 1
    ++ List.replicate 8 0 ++ artTag
    ++ List.replicate 4 0 ++ natToLE 4 1 ++ natToLE 4 0 ++ natToLE 4 7 ++ natToLE 4 1
    ++ List.replicate 8 0 ++ artuTag
    ++ List.replicate 4 0 ++ natToLE 4 0 ++ natToLE 4 0 ++ natToLE 4 3
    ++ natToLE 8 1 ++ List.replicate 4 0 ++ List.replicate 4 255 ++ natToLE 4 1
    ++ demoArtpBytes
    ++ strToData [98]
    ++ strToData [97]
    ++ strToData strArticulation

/-- The parsed stationary catalogue of `demoStaBuf`. -/
def demoStaParsed : List (Nat × Stau) :=
  match readSta demoStaBuf 0 with
  | some x => x.1
  | none => []

/-- The parsed VQM catalogue of `demoVqmBuf`. -/
def demoVqmParsed : List (Nat × Vqmp) :=
  match readVqm demoVqmBuf 0 with
  | some x => x.1
  | none => []

/-- The parsed articulation catalogue of `demoArtBuf` (fuel 32). -/
def demoArtCat : List (Nat × Art) :=
  match readArt demoArtBuf 32 0 with
  | some x => x.1
  | none => []

/-- The `ARTp` record parsed out of `demoArtpBytes` at position 0. -/
def demoArtpParsed : Artp :=
  match readArtp demoArtpBytes 0 with
  | some x => x.1
  | none =>
    { devArtp := 0, unknown1 := [], pitch1 := [], pitch2 := [], unknown2 := [],
      dynamics := [], unknown3 := [], artpIdx := 0, sndUnknown := 0, epr := [],
      fs := 0, sndId := 0, sndSite := 0, sndLogical := 0, snd2Site := 0,
      snd2Logical := 0, frameAlign := .v2 [] }

/-- `demoArtBuf` re-used as an index buffer being patched by the pack
path at the standalone `ARTp`'s site. -/
def demoPatched : List Nat :=
  match packPatchArtSnd demoArtBuf 126 0x2000 0x800 with
  | some b => b
  | none => []

/-- The first per-phoneme dict produced by converting `demoArtCat`. -/
def demoDict : List (String × DVal) :=
  match artDictEntries demoArtCat with
  | (_, d :: _) :: _ => d
  | _ => []

/-- A chunk file with an `FRM2` header at offset 205 (the EpR offset
recorded in `demoArtCat`), for exercising the pack EpR loop. -/
def demoArtChunk : List Nat := List.replicate 205 0 ++ frm2Magic ++ natToLE 4 8

/-- A data file whose offset 0 does not carry the `SND ` magic while
offset 4 carries a well-formed empty chunk. -/
def c8Ddb : List Nat :=
  [0, 0, 0, 0] ++ sndMagic ++ natToLE 4 18 ++ natToLE 4 44100 ++ natToLE 2 1 ++ natToLE 4 0

/-- A minimal recipient index image: DBV count 4 at offset 0x18, two
filler bytes, then the footer literal at offset 30, its only
occurrence. -/
def demoMixSrc : List Nat :=
  List.replicate 0x18 0 ++ natToLE 4 4 ++ [9, 9] ++ ddiFooter

def demoImg : List Nat := [1, 2, 3]

/-- The spliced output for the no-VQM case on `demoMixSrc`. -/
def demoMixOut : List Nat :=
  match mixinsSplice demoMixSrc 0 demoImg with
  | some b => b
  | none => []

/-- Shape invariant for the conversion accumulator: every stored dict
is `artpToDict` of some parsed record. -/
def DictShape (acc : List (List Nat × List (List (String × DVal)))) : Prop :=
  ∀ kd ∈ acc, ∀ d ∈ kd.2, ∃ p : Artp, d = artpToDict p

/-! # Theorems -/

/-! ## Generic byte-level lemmas -/

theorem leVal_nil : leVal [] = 0 := rfl

theorem leVal_cons (b : Nat) (l : List Nat) : leVal (b :: l) = b + 256 * leVal l := rfl

theorem natToLE_length (n v : Nat) : (natToLE n v).length = n := by
  induction n generalizing v with
  | zero => rfl
  | succ n ih => simp [natToLE, ih]

theorem leVal_natToLE (n v : Nat) (h : v < 256 ^ n) : leVal (natToLE n v) = v := by
  induction n generalizing v with
  | zero => simp [pow_zero] at h; simp [natToLE, leVal_nil]; omega
  | succ n ih =>
    have hd : v / 256 < 256 ^ n := by
      rw [Nat.div_lt_iff_lt_mul (by norm_num)]
      calc v < 256 ^ (n + 1) := h
        _ = 256 ^ n * 256 := by ring
    rw [natToLE, leVal_cons, ih _ hd]
    omega

theorem readBytesAt_getElem? (l : List Nat) (pos n i : Nat) :
    (readBytesAt l pos n)[i]? = if i < n then l[pos + i]? else none := by
  simp [readBytesAt, List.getElem?_take, List.getElem?_drop]

theorem readBytesAt_length (l : List Nat) (pos n : Nat) :
    (readBytesAt l pos n).length = min n (l.length - pos) := by
  simp [readBytesAt]

theorem readBytesAt_congr {l₁ l₂ : List Nat} (pos n : Nat)
    (h : ∀ j, pos ≤ j → j < pos + n → l₁[j]? = l₂[j]?) :
    readBytesAt l₁ pos n = readBytesAt l₂ pos n := by
  apply List.ext_getElem?_iff.mpr
  intro i
  rw [readBytesAt_getElem?, readBytesAt_getElem?]
  split
  · exact h (pos + i) (by omega) (by omega)
  · rfl

theorem writeBytesAt_length {buf bs : List Nat} {pos : Nat}
    (h : pos + bs.length ≤ buf.length) :
    (writeBytesAt buf pos bs).length = buf.length := by
  simp [writeBytesAt]
  omega

theorem writeBytesAt_getElem? (buf bs : List Nat) (pos i : Nat)
    (h : pos + bs.length ≤ buf.length) :
    (writeBytesAt buf pos bs)[i]? =
      if pos ≤ i ∧ i < pos + bs.length then bs[i - pos]? else buf[i]? := by
  have hp : pos ≤ buf.length := by omega
  simp only [writeBytesAt, List.append_assoc, List.getElem?_append, List.length_take,
    List.getElem?_take, List.getElem?_drop, List.length_append]
  rcases Nat.lt_or_ge i pos with hi | hi
  · rw [if_pos (by omega), if_pos (by omega), if_neg (by omega)]
  · rw [if_neg (by omega)]
    rcases Nat.lt_or_ge i (pos + bs.length) with hi2 | hi2
    · rw [if_pos (by omega), if_pos (by omega)]
      congr 1
      omega
    · rw [if_neg (by omega), if_neg (by omega)]
      congr 1
      omega

theorem readBytesAt_writeBytesAt (buf bs : List Nat) (pos : Nat)
    (h : pos + bs.length ≤ buf.length) :
    readBytesAt (writeBytesAt buf pos bs) pos bs.length = bs := by
  apply List.ext_getElem?_iff.mpr
  intro i
  rw [readBytesAt_getElem?]
  split
  · rw [writeBytesAt_getElem? _ _ _ _ h, if_pos (by omega)]
    congr 1
    omega
  · exact (List.getElem?_eq_none_iff.mpr (by omega)).symm

theorem readBytesAt_writeBytesAt_disjoint (buf bs : List Nat) (pos i n : Nat)
    (h : pos + bs.length ≤ buf.length) (hd : i + n ≤ pos ∨ pos + bs.length ≤ i) :
    readBytesAt (writeBytesAt buf pos bs) i n = readBytesAt buf i n := by
  apply readBytesAt_congr
  intro j hj1 hj2
  rw [writeBytesAt_getElem? _ _ _ _ h, if_neg (by omega)]

/-! ## C6: backward search (`reverse_search` / `stream_reverse_search`) -/

theorem matchAt_iff (data : List Nat) (p : Nat) :
    matchAt data sndMagic p = true ↔ readBytesAt data p 4 = sndMagic := by
  simp [matchAt, sndMagic]

/-- Invariant of the backward loop: a successful return is the highest
match at or below the start index, and the window break can fire only
after one extra position has been tested. -/
theorem revSearchFrom_spec (data pat : List Nat) (off limit : Nat) :
    ∀ i, revSearchFrom data pat off limit i = -1 ∨
      ∃ p : Nat, revSearchFrom data pat off limit i = (p : Int) ∧ 1 ≤ p ∧ p ≤ i ∧
        matchAt data pat p = true ∧
        (∀ j : Nat, p < j → j ≤ i → matchAt data pat j = false) ∧
        (off ≤ p + limit + 1 ∨ p = i) := by
  intro i
  induction i with
  | zero => left; rfl
  | succ k ih =>
    rw [revSearchFrom]
    split_ifs with h1 h2
    · right
      refine ⟨k + 1, rfl, by omega, le_refl _, h1, ?_, Or.inr rfl⟩
      intro j hj1 hj2
      omega
    · left; rfl
    · rcases ih with h | ⟨p, hp, h1p, hpk, hm, hmax, hb⟩
      · left; exact h
      · right
        refine ⟨p, hp, h1p, by omega, hm, ?_, ?_⟩
        · intro j hj1 hj2
          rcases Nat.lt_or_ge j (k + 1) with hj | hj
          · exact hmax j hj1 (by omega)
          · have : j = k + 1 := by omega
            subst this
            simpa using h1
        · left
          rcases hb with hb | hb
          · exact hb
          · omega

/-- C6 counterexample input: a buffer whose only `SND ` magic sits one
byte below the claimed window floor. -/
def c6Data : List Nat := [0, 0, 0, 0, 83, 78, 68, 32, 0, 0, 0, 0]

/-- C6 (counterexample): with declared offset 10 and window cap 1,
`reverse_search` returns position 4 — a successful (non-`-1`) return
that is strictly below `declared_offset - window = 9`, refuting the
claimed lower bound `returned ≥ declared offset − window cap`. -/
theorem reverseSearch_window_counterexample :
    reverseSearch c6Data sndMagic 10 1 = 4 ∧ ¬ ((10 : Int) - 1 ≤ 4) := by
  constructor
  · rfl
  · decide

/-- C6 (amended): the backward search either signals "not found"
(`-1`) or returns the highest position `p ≥ 1` with `p + 4 ≤ declared`
whose 4-byte window is `SND `; the bound on the low side is
`declared − window − 5`, not `declared − window` (the loop starts at
`declared − 4` and the match test precedes the window break, so one
position past the window is still examined).  `stream_reverse_search`
runs the identical loop, with the `-1` default resolving to a 10 MiB
window. -/
theorem reverseSearch_amended :
    (∀ (data : List Nat) (offset limit : Nat),
      reverseSearch data sndMagic offset limit = -1 ∨
      ∃ p : Nat, reverseSearch data sndMagic offset limit = (p : Int) ∧ 1 ≤ p ∧
        p + 4 ≤ offset ∧ readBytesAt data p 4 = sndMagic ∧
        (∀ j : Nat, p < j → j + 4 ≤ offset → readBytesAt data j 4 ≠ sndMagic) ∧
        offset ≤ p + limit + 5) ∧
    (∀ (data : List Nat) (offset limit : Nat),
      streamReverseSearch data sndMagic offset (limit : Int) =
        reverseSearch data sndMagic offset limit) ∧
    (∀ (data : List Nat) (offset : Nat),
      streamReverseSearch data sndMagic offset (-1) =
        reverseSearch data sndMagic offset 10485760) := by
  refine ⟨?_, ?_, ?_⟩
  · intro data offset limit
    rcases revSearchFrom_spec data sndMagic (offset - sndMagic.length) limit
        (offset - sndMagic.length) with h | ⟨p, hp, h1p, hpk, hm, hmax, hb⟩
    · left; exact h
    · right
      have hlen : sndMagic.length = 4 := rfl
      rw [hlen] at hp hpk hmax hb
      have hoff : 4 ≤ offset := by
        by_contra hlt
        omega
      refine ⟨p, hp, h1p, by omega, (matchAt_iff data p).mp hm, ?_, by omega⟩
      intro j hj1 hj2 hcon
      have hf := hmax j hj1 (by omega)
      have ht := (matchAt_iff data j).mpr hcon
      rw [hf] at ht
      exact Bool.noConfusion ht
  · intro data offset limit
    simp [streamReverseSearch, reverseSearch]
  · intro data offset
    simp [streamReverseSearch, reverseSearch]

/-! ## C7: frame-alignment layout classification -/

/-- C7 counterexample input: an 8-byte table whose leading u32 is 1,
so `count*16 + 4 = 20 ≠ 8`. -/
def c7Bytes : List Nat := [1, 0, 0, 0, 5, 0, 0, 0]

/-- C7 (counterexample): the parser classifies this 8-byte table as V3
even though the claimed shape condition `count*16 + 4 == length` fails,
refuting the claimed "exactly when". -/
theorem frameAlign_counterexample :
    (parseFrameAlign (c7Bytes.length : Int) c7Bytes).isV3 = true ∧
      ¬ specV3Condition c7Bytes := by
  constructor
  · rfl
  · decide

/-- C7 (amended): the parser classifies a frame-alignment table as the
V3 layout exactly when its length is greater than 4; the shape
condition `count*16 + 4 == length` is never checked (fields past the
end of the table read as zero). -/
theorem frameAlign_classification (b : List Nat) :
    (parseFrameAlign (b.length : Int) b).isV3 = true ↔ 4 < b.length := by
  unfold parseFrameAlign
  split_ifs with h
  · simp only [FrameAlign.isV3, true_iff]
    exact_mod_cast h
  · simp only [FrameAlign.isV3, false_iff, Bool.false_eq_true]
    intro hc
    exact h (by exact_mod_cast hc)

/-! ## C9: brute-force scan completeness -/

theorem readBytesAt_nest (data : List Nat) (o L i m : Nat) :
    readBytesAt (readBytesAt data o L) i m = (data.drop (o + i)).take (min m (L - i)) := by
  simp only [readBytesAt, List.drop_take, List.drop_drop, List.take_take, Nat.add_comm]

theorem magic_slice_bound {data : List Nat} {q : Nat}
    (h : readBytesAt data q 4 = sndMagic) : q + 4 ≤ data.length := by
  have hl := congrArg List.length h
  rw [readBytesAt_length] at hl
  simp [sndMagic] at hl
  omega

theorem windowHits_mem (o : Nat) (buffer : List Nat) (q : Nat) :
    q ∈ windowHits o buffer ↔
      ∃ i, i < buffer.length ∧ readBytesAt buffer i 4 = sndMagic ∧ q = o + i := by
  simp only [windowHits, List.mem_filterMap, List.mem_range]
  constructor
  · rintro ⟨i, hi, hif⟩
    by_cases h : readBytesAt buffer i 4 = sndMagic
    · rw [if_pos h, Option.some_inj] at hif
      exact ⟨i, hi, h, hif.symm⟩
    · rw [if_neg h] at hif
      exact Option.noConfusion hif
  · rintro ⟨i, hi, h, rfl⟩
    exact ⟨i, hi, by rw [if_pos h]⟩

theorem bruteScan_mem (data : List Nat) :
    ∀ o q, q ∈ bruteScan data o ↔ o ≤ q ∧ readBytesAt data q 4 = sndMagic := by
  have main : ∀ n o q, data.length - o ≤ n →
      (q ∈ bruteScan data o ↔ o ≤ q ∧ readBytesAt data q 4 = sndMagic) := by
    intro n
    induction n with
    | zero =>
      intro o q hn
      rw [bruteScan]
      rw [dif_pos (by omega)]
      simp only [List.not_mem_nil, false_iff, not_and]
      intro hq hm
      have := magic_slice_bound hm
      omega
    | succ n ih =>
      intro o q hn
      rw [bruteScan]
      by_cases ho : data.length ≤ o
      · rw [dif_pos ho]
        simp only [List.not_mem_nil, false_iff, not_and]
        intro hq hm
        have := magic_slice_bound hm
        omega
      · rw [dif_neg ho]
        have hblen : (readBytesAt data o bufferLen).length = min bufferLen (data.length - o) :=
          readBytesAt_length data o bufferLen
        by_cases hshort : (readBytesAt data o bufferLen).length < bufferLen
        · rw [if_pos hshort]
          have hbl : (readBytesAt data o bufferLen).length = data.length - o := by
            simp only [bufferLen] at *
            omega
          rw [windowHits_mem]
          constructor
          · rintro ⟨i, hi, hslice, rfl⟩
            refine ⟨by omega, ?_⟩
            rw [readBytesAt_nest] at hslice
            have hl := congrArg List.length hslice
            simp only [List.length_take, List.length_drop, sndMagic,
              List.length_cons, List.length_nil] at hl
            have h4 : min 4 (bufferLen - i) = 4 := by omega
            rw [h4] at hslice
            exact hslice
          · rintro ⟨hq, hm⟩
            have hqb := magic_slice_bound hm
            refine ⟨q - o, by omega, ?_, by omega⟩
            rw [readBytesAt_nest]
            have h4 : min 4 (bufferLen - (q - o)) = 4 := by
              simp only [bufferLen] at *
              omega
            rw [h4]
            have : o + (q - o) = q := by omega
            rw [this]
            exact hm
        · rw [if_neg hshort]
          have hfull : (readBytesAt data o bufferLen).length = bufferLen := by omega
          have hrest : bufferLen ≤ data.length - o := by
            simp only [bufferLen] at *
            omega
          rw [List.mem_append, windowHits_mem,
            ih (o + (bufferLen - 4)) q (by simp only [bufferLen] at *; omega)]
          constructor
          · rintro (⟨i, hi, hslice, rfl⟩ | ⟨hq, hm⟩)
            · refine ⟨by omega, ?_⟩
              rw [readBytesAt_nest] at hslice
              have hl := congrArg List.length hslice
              simp only [List.length_take, List.length_drop, sndMagic,
                List.length_cons, List.length_nil] at hl
              have h4 : min 4 (bufferLen - i) = 4 := by omega
              rw [h4] at hslice
              exact hslice
            · exact ⟨by omega, hm⟩
          · rintro ⟨hq, hm⟩
            have hqb := magic_slice_bound hm
            by_cases hup : o + (bufferLen - 4) ≤ q
            · exact Or.inr ⟨hup, hm⟩
            · refine Or.inl ⟨q - o, ?_, ?_, by omega⟩
              · simp only [bufferLen] at *
                omega
              · rw [readBytesAt_nest]
                have h4 : min 4 (bufferLen - (q - o)) = 4 := by
                  simp only [bufferLen] at *
                  omega
                rw [h4]
                have : o + (q - o) = q := by omega
                rw [this]
                exact hm
  intro o q
  exact main (data.length - o) o q (le_refl _)

/-- C9: the trailing brute-force scan, with its 10 KiB windows
overlapping by 4 bytes (advance `buffer_len - 4`), detects exactly the
positions whose 4-byte window is the `SND ` magic — in particular a
magic straddling a window boundary lies wholly inside the next window
and is still found. -/
theorem bruteScan_complete (data : List Nat) (q : Nat) :
    q ∈ bruteScan data 0 ↔ readBytesAt data q 4 = sndMagic := by
  rw [bruteScan_mem data 0 q]
  exact ⟨fun h => h.2, fun h => ⟨Nat.zero_le q, h⟩⟩

/-! ## C3: VQM synthesiser vs specification image -/

theorem createVqmEntry_eq_spec (m : VQMMeta) : createVqmEntry m = specVqmEntryImage m := by
  simp only [createVqmEntry, specVqmEntryImage, vqmpTag, f32Of224, strToData]

/-- C3: the VQM block synthesiser emits exactly the byte image of
specification §4.6 — in particular the first float of each `VQMp`
record is the literal 224.0 (not the entry's `pitch1`), the remaining
floats follow in the order pitch2, unknown2, dynamics, unknown3, and
all byte literals match. -/
theorem createVqmStream_eq_spec (metas : List VQMMeta) :
    createVqmStream metas = specVqmImage metas := by
  have hfm : metas.flatMap createVqmEntry = metas.flatMap specVqmEntryImage := by
    induction metas with
    | nil => rfl
    | cons m t ih => simp only [List.flatMap_cons, ih, createVqmEntry_eq_spec]
  simp only [createVqmStream, specVqmImage, vqmTag, vqmuTag, strToData, strGROWL, strVqm, hfm]
  rfl

/-! ## C2 / C4: the VQM splice of `mixins_vqm` / `mixins_sta2vqm` -/

theorem findSub_some {data pat : List Nat} {i : Nat} (h : findSub data pat = some i) :
    readBytesAt data i pat.length = pat ∧ i < data.length := by
  unfold findSub at h
  have h1 := List.find?_some h
  have h2 := List.mem_of_find?_eq_some h
  rw [decide_eq_true_iff] at h1
  rw [List.mem_range] at h2
  exact ⟨h1, h2⟩

theorem readBytesAt_congr_shift {l₁ l₂ : List Nat} {p₁ p₂ n : Nat}
    (h : ∀ j, j < n → l₁[p₁ + j]? = l₂[p₂ + j]?) :
    readBytesAt l₁ p₁ n = readBytesAt l₂ p₂ n := by
  apply List.ext_getElem?_iff.mpr
  intro i
  rw [readBytesAt_getElem?, readBytesAt_getElem?]
  split
  · exact h i (by omega)
  · rfl

theorem insertAt_getElem? (b img : List Nat) (fp i : Nat) (hfp : fp ≤ b.length) :
    (b.take fp ++ img ++ b.drop fp)[i]? =
      if i < fp then b[i]?
      else if i < fp + img.length then img[i - fp]?
      else b[i - img.length]? := by
  have hTlen : (b.take fp ++ img).length = fp + img.length := by
    rw [List.length_append, List.length_take]
    omega
  rcases Nat.lt_or_ge i fp with hi | hi
  · rw [if_pos hi, List.getElem?_append, if_pos (by rw [hTlen]; omega),
      List.getElem?_append, if_pos (by rw [List.length_take]; omega),
      List.getElem?_take, if_pos hi]
  · rw [if_neg (by omega), List.getElem?_append]
    rcases Nat.lt_or_ge i (fp + img.length) with hi2 | hi2
    · rw [if_pos (by rw [hTlen]; omega), List.getElem?_append,
        if_neg (by rw [List.length_take]; omega), if_pos hi2,
        List.length_take, Nat.min_eq_left hfp]
    · rw [if_neg (by rw [hTlen]; omega), if_neg (by omega), List.getElem?_drop, hTlen]
      congr 1
      omega

/-- Core correctness of the no-pre-existing-VQM splice path
(`mixins_ddb.py` 234-248): pointwise description of the output. -/
theorem mixinsSplice_spec (src img : List Nat) (dbvStart fp : Nat) (out : List Nat)
    (hfind : findSub src ddiFooter = some fp)
    (hdb : dbvStart + 0x1C ≤ fp)
    (hc : readU32 src (dbvStart + 0x18) + 1 < 2 ^ 32)
    (hout : mixinsSplice src dbvStart img = some out) :
    out.length = src.length + img.length ∧
    (∀ i, i < fp → (i < dbvStart + 0x18 ∨ dbvStart + 0x1C ≤ i) → out[i]? = src[i]?) ∧
    (∀ i, i < img.length → out[fp + i]? = img[i]?) ∧
    (∀ j, fp ≤ j → out[j + img.length]? = src[j]?) ∧
    readU32 out (dbvStart + 0x18) = readU32 src (dbvStart + 0x18) + 1 := by
  have hfp := findSub_some hfind
  have hfplen : fp < src.length := hfp.2
  have hwrite : dbvStart + 0x18 + (natToLE 4 (readU32 src (dbvStart + 0x18) + 1)).length ≤
      src.length := by
    rw [natToLE_length]
    omega
  -- unfold the splice
  set b := writeBytesAt src (dbvStart + 0x18) (natToLE 4 (readU32 src (dbvStart + 0x18) + 1))
    with hb
  have hblen : b.length = src.length := writeBytesAt_length hwrite
  have hbump : bumpDbv src dbvStart = some b := by
    rw [bumpDbv, if_pos hc]
  have hfindpy : findSubPy src ddiFooter = (fp : Int) := by
    rw [findSubPy, hfind]
  have hsplice : mixinsSplice src dbvStart img =
      (bumpDbv src dbvStart).map fun bb =>
        byteReplacePy bb (findSubPy src ddiFooter) 0 img := rfl
  rw [hsplice, hbump, hfindpy, Option.map_some', Option.some_inj] at hout
  have houtdef : out = b.take fp ++ img ++ b.drop fp := by
    rw [← hout, byteReplacePy]
    have h1 : pyIdx (fp : Int) b.length = fp := by
      rw [pyIdx, if_neg (by omega)]
      simp
      omega
    have h2 : pyIdx ((fp : Int) + 0) b.length = fp := by
      rw [Int.add_zero]
      exact h1
    rw [h1, h2]
  have hbEl : ∀ i : Nat, (i < dbvStart + 0x18 ∨ dbvStart + 0x1C ≤ i) → b[i]? = src[i]? := by
    intro i hi
    rw [hb, writeBytesAt_getElem? _ _ _ _ hwrite, if_neg]
    rw [natToLE_length]
    omega
  have houtEl : ∀ i : Nat, out[i]? =
      if i < fp then b[i]?
      else if i < fp + img.length then img[i - fp]?
      else b[i - img.length]? := by
    intro i
    rw [houtdef]
    exact insertAt_getElem? b img fp i (by omega)
  refine ⟨?_, ?_, ?_, ?_, ?_⟩
  · rw [houtdef]
    simp only [List.length_append, List.length_take, List.length_drop]
    omega
  · intro i hi hside
    rw [houtEl, if_pos hi]
    exact hbEl i hside
  · intro i hi
    rw [houtEl, if_neg (by omega), if_pos (by omega)]
    congr 1
    omega
  · intro j hj
    rw [houtEl, if_neg (by omega), if_neg (by omega)]
    have h1 : j + img.length - img.length = j := by omega
    rw [h1]
    exact hbEl j (by omega)
  · have hread : readBytesAt out (dbvStart + 0x18) 4 =
        natToLE 4 (readU32 src (dbvStart + 0x18) + 1) := by
      have hbread : readBytesAt b (dbvStart + 0x18) 4 =
          natToLE 4 (readU32 src (dbvStart + 0x18) + 1) := by
        have := readBytesAt_writeBytesAt src
          (natToLE 4 (readU32 src (dbvStart + 0x18) + 1)) (dbvStart + 0x18) hwrite
        rwa [natToLE_length] at this
      rw [← hbread]
      apply readBytesAt_congr_shift
      intro j hj
      rw [houtEl, if_pos (by omega)]
    rw [readU32, hread, leVal_natToLE]
    exact hc

/-- The confirmation guard holds for every answer: no byte list equals
both `"y"` and `""`, so `choice != "y" or choice != ""` is a
tautology and line 161 always returns. -/
theorem promptGuard_true (choice : List Nat) : promptGuard choice = true := by
  by_cases hc : choice = [121]
  · subst hc
    rfl
  · rw [promptGuard, beq_eq_false_iff_ne.mpr hc]
    rfl

/-- C2 counterexample: on a recipient index that already has a VQM
section the mix-in never replaces the `[vqm.start, vqm.end)` range.
The confirmation guard at `mixins_ddb.py` 160/266 holds for every
answer, including `"y"` and the empty string, so the function returns
`None` at line 161 before the splice and in particular never produces
the byte-replaced index the claim describes. -/
theorem mixins_replace_counterexample :
    mixinsVqmResult [121] demoMixSrc (some (30, 39)) 0 demoImg = none ∧
    mixinsVqmResult [] demoMixSrc (some (30, 39)) 0 demoImg = none ∧
    ∀ choice : List Nat,
      mixinsVqmResult choice demoMixSrc (some (30, 39)) 0 demoImg ≠
        some (byteReplace demoMixSrc 30 9 demoImg) := by
  refine ⟨rfl, rfl, ?_⟩
  intro choice hcon
  have hg : promptGuard choice = true := promptGuard_true choice
  have hres : mixinsVqmResult choice demoMixSrc (some (30, 39)) 0 demoImg = none := by
    show (if promptGuard choice = true then none
      else some (byteReplace demoMixSrc 30 (39 - 30) demoImg)) = none
    rw [if_pos hg]
  rw [hres] at hcon
  exact Option.noConfusion hcon

/-- C2: the live half of the splice claim holds — for a recipient index
without a VQM section the mix-in inserts the synthesised image exactly
at the footer literal position (replacing zero bytes, the footer and
everything after it shifted by the image length) and increments the u32
at `dbv.start + 0x18` by one — while the has-VQM half never executes:
for every prompt answer the mix-in returns `None` on a recipient that
already has a VQM section, so the replacement of `[vqm.start, vqm.end)`
claimed for that case is never performed. -/
theorem mixinsVqm_correct :
    (∀ (choice src img : List Nat) (dbvStart fp : Nat) (out : List Nat),
      findSub src ddiFooter = some fp →
      (∀ j, readBytesAt src j 9 = ddiFooter → j = fp) →
      dbvStart + 0x1C ≤ fp →
      readU32 src (dbvStart + 0x18) + 1 < 2 ^ 32 →
      mixinsVqmResult choice src none dbvStart img = some out →
      out.length = src.length + img.length ∧
      readBytesAt out fp img.length = img ∧
      readBytesAt out (fp + img.length) 9 = ddiFooter ∧
      readU32 out (dbvStart + 0x18) = readU32 src (dbvStart + 0x18) + 1) ∧
    (∀ (choice src img : List Nat) (s e dbvStart : Nat),
      mixinsVqmResult choice src (some (s, e)) dbvStart img = none) := by
  constructor
  · intro choice src img dbvStart fp out hfind huniq hdb hc hout
    have hout' : mixinsSplice src dbvStart img = some out := hout
    obtain ⟨hlen, hpre, hmid, htail, hcount⟩ :=
      mixinsSplice_spec src img dbvStart fp out hfind hdb hc hout'
    refine ⟨hlen, ?_, ?_, hcount⟩
    · apply List.ext_getElem?_iff.mpr
      intro i
      rw [readBytesAt_getElem?]
      split
      · exact hmid i (by omega)
      · exact (List.getElem?_eq_none_iff.mpr (by omega)).symm
    · have hfoot : readBytesAt src fp 9 = ddiFooter := (findSub_some hfind).1
      rw [← hfoot]
      apply readBytesAt_congr_shift
      intro j hj
      have h1 : fp + img.length + j = (fp + j) + img.length := by omega
      rw [h1]
      exact htail (fp + j) (by omega)
  · intro choice src img s e dbvStart
    show (if promptGuard choice = true then none
      else some (byteReplace src s (e - s) img)) = none
    rw [if_pos (promptGuard_true choice)]

/-- C4: after a mix-in into a recipient without a pre-existing VQM
section, the bytes of the recorded STA and ART section ranges are
unchanged at their original positions, the output length is the input
length plus the image length, and only the DBV count field and the
inserted region differ (positions below the footer outside the count
field keep their bytes; positions from the footer on are shifted by the
image length). -/
theorem mixinsSplice_frame (src img : List Nat) (dbvStart fp : Nat)
    (staS staE artS artE : Nat) (out : List Nat)
    (hfind : findSub src ddiFooter = some fp)
    (hsta0 : staS ≤ staE) (hsta1 : dbvStart + 0x1C ≤ staS) (hsta2 : staE ≤ fp)
    (hart0 : artS ≤ artE) (hart1 : dbvStart + 0x1C ≤ artS) (hart2 : artE ≤ fp)
    (hc : readU32 src (dbvStart + 0x18) + 1 < 2 ^ 32)
    (hout : mixinsSplice src dbvStart img = some out) :
    out.length = src.length + img.length ∧
    readBytesAt out staS (staE - staS) = readBytesAt src staS (staE - staS) ∧
    readBytesAt out artS (artE - artS) = readBytesAt src artS (artE - artS) ∧
    (∀ i, i < fp → (i < dbvStart + 0x18 ∨ dbvStart + 0x1C ≤ i) → out[i]? = src[i]?) ∧
    (∀ j, fp ≤ j → out[j + img.length]? = src[j]?) := by
  obtain ⟨hlen, hpre, hmid, htail, hcount⟩ :=
    mixinsSplice_spec src img dbvStart fp out hfind (by omega) hc hout
  refine ⟨hlen, ?_, ?_, hpre, htail⟩
  · apply readBytesAt_congr_shift
    intro j hj
    exact hpre (staS + j) (by omega) (Or.inr (by omega))
  · apply readBytesAt_congr_shift
    intro j hj
    exact hpre (artS + j) (by omega) (Or.inr (by omega))

/-! ## Association-list membership lemmas -/

theorem mem_insertSorted {κ α : Type} (le : κ → κ → Bool) (x y : κ × α)
    (l : List (κ × α)) : y ∈ insertSorted le x l ↔ y = x ∨ y ∈ l := by
  induction l with
  | nil => simp [insertSorted]
  | cons a t ih =>
    rw [insertSorted]
    split_ifs
    · simp [List.mem_cons]
    · simp only [List.mem_cons, ih]
      tauto

theorem mem_sortAssoc {κ α : Type} (le : κ → κ → Bool) (y : κ × α)
    (l : List (κ × α)) : y ∈ sortAssoc le l ↔ y ∈ l := by
  induction l with
  | nil => simp [sortAssoc]
  | cons a t ih =>
    rw [sortAssoc, mem_insertSorted]
    simp only [List.mem_cons, ih]

theorem mem_assocSet {κ α : Type} [DecidableEq κ] (l : List (κ × α)) (k : κ) (v : α)
    (y : κ × α) (h : y ∈ assocSet l k v) : y = (k, v) ∨ y ∈ l := by
  induction l with
  | nil => simpa [assocSet] using h
  | cons a t ih =>
    rw [assocSet] at h
    split_ifs at h
    · rcases List.mem_cons.mp h with h1 | h1
      · exact Or.inl h1
      · exact Or.inr (List.mem_cons_of_mem a h1)
    · rcases List.mem_cons.mp h with h1 | h1
      · exact Or.inr (h1 ▸ List.mem_cons_self a t)
      · rcases ih h1 with h2 | h2
        · exact Or.inl h2
        · exact Or.inr (List.mem_cons_of_mem a h2)

/-! ## C8: exact-mode mismatch policy -/

/-- C8 (counterexample): in the extract walk an articulation unit whose
declared offset does not carry the `SND ` magic is *skipped* and the
loop continues — the unit at offset 0 here fails the exact check, yet
the unit at offset 4 is still dumped.  This refutes the claim that an
exact-mode mismatch on an articulation or VQM unit is always fatal. -/
theorem extract_mismatch_counterexample :
    extractArtLoop c8Ddb [0, 4] = [(18, 44100, 1, [])] ∧
      readBytesAt c8Ddb 0 4 ≠ sndMagic := by
  constructor
  · rfl
  · decide

/-- C8 (amended): the failure policy is split by orchestrator.  In the
mix-in copy path, an exact-mode `SND ` magic mismatch raises and aborts
the whole operation; in the extract walk, an articulation or VQM exact
mismatch merely skips that unit while the loop continues, and a
backward-search miss on a stationary unit is likewise skipped. -/
theorem exactMismatch_policy :
    (∀ (ddb : List Nat) (off : Nat), readBytesAt ddb off 4 ≠ sndMagic →
      mixinsVqmCopySnd ddb off = .error "Mixins DDB file is broken") ∧
    (∀ (ddb pre post : List Nat) (off : Nat), readBytesAt ddb off 4 ≠ sndMagic →
      extractArtLoop ddb (pre ++ off :: post) =
        extractArtLoop ddb pre ++ extractArtLoop ddb post) ∧
    (∀ (ddb : List Nat) (off : Nat), streamReverseSearch ddb sndMagic off 0x8000 = -1 →
      extractStaSnd ddb off = none) := by
  refine ⟨?_, ?_, ?_⟩
  · intro ddb off h
    rw [mixinsVqmCopySnd, if_neg h]
  · intro ddb pre post off h
    have hnone : extractArtSnd ddb off = none := by
      rw [extractArtSnd, if_neg h]
    simp [extractArtLoop, List.filterMap_append, List.filterMap_cons, hnone]
  · intro ddb off h
    simp [extractStaSnd, h]

/-- Witness for the amended C8 statement at concrete inputs. -/
theorem exactMismatch_policy_witness :
    mixinsVqmCopySnd c8Ddb 0 = .error "Mixins DDB file is broken" ∧
    extractArtLoop c8Ddb [4, 0, 4] = extractArtLoop c8Ddb [4] ++ extractArtLoop c8Ddb [4] ∧
    extractStaSnd c8Ddb 3 = none :=
  ⟨exactMismatch_policy.1 c8Ddb 0 (by decide),
   exactMismatch_policy.2.1 c8Ddb [4] [4] 0 (by decide),
   exactMismatch_policy.2.2 c8Ddb 3 (by decide)⟩

/-! ## C10: `snd_cutoff` key never produced by the parser -/

theorem dictShape_assocSet {acc : List (List Nat × List (List (String × DVal)))}
    {k : List Nat} {v : List (List (String × DVal))}
    (hacc : DictShape acc) (hv : ∀ d ∈ v, ∃ p : Artp, d = artpToDict p) :
    DictShape (assocSet acc k v) := by
  intro kd hkd d hd
  rcases mem_assocSet acc k v kd hkd with h | h
  · rw [h] at hd
    exact hv d hd
  · exact hacc kd h d hd

theorem dictShape_artuEntryVal (u : Artu) :
    ∀ d ∈ artuEntryVal u, ∃ p : Artp, d = artpToDict p := by
  intro d hd
  rcases List.mem_map.mp hd with ⟨pp, _, hpp⟩
  exact ⟨pp.2, hpp.symm⟩

theorem dictShape_addArtus (keyPre : List Nat) (us : List (Nat × Artu)) :
    ∀ acc, DictShape acc → DictShape (addArtus keyPre acc us) := by
  induction us with
  | nil => intro acc hacc; exact hacc
  | cons u t ih =>
    intro acc hacc
    rw [addArtus, List.foldl_cons]
    exact ih _ (dictShape_assocSet hacc (dictShape_artuEntryVal u.2))

theorem dictShape_subFold (a : Art) (subs : List (Nat × Art)) :
    ∀ acc, DictShape acc →
      DictShape (subs.foldl (fun ac ps =>
        addArtus (a.phoneme ++ [32] ++ ps.2.phoneme ++ [32]) ac ps.2.artu) acc) := by
  induction subs with
  | nil => intro acc hacc; exact hacc
  | cons sp t ih =>
    intro acc hacc
    rw [List.foldl_cons]
    exact ih _ (dictShape_addArtus _ _ acc hacc)

theorem dictShape_artDictEntries (arts : List (Nat × Art)) :
    DictShape (artDictEntries arts) := by
  have hfold : ∀ (l : List (Nat × Art)) (acc), DictShape acc →
      DictShape (l.foldl (fun acc pa =>
        (pa.2.sub.foldl (fun ac ps =>
          addArtus (pa.2.phoneme ++ [32] ++ ps.2.phoneme ++ [32]) ac ps.2.artu)
          (addArtus (pa.2.phoneme ++ [32]) acc pa.2.artu))) acc) := by
    intro l
    induction l with
    | nil => intro acc hacc; exact hacc
    | cons pa t ih =>
      intro acc hacc
      rw [List.foldl_cons]
      exact ih _ (dictShape_subFold pa.2 pa.2.sub _ (dictShape_addArtus _ _ acc hacc))
  intro kd hkd
  rw [artDictEntries, mem_sortAssoc] at hkd
  exact hfold arts [] (by intro kd h; exact absurd h (List.not_mem_nil kd)) kd hkd

theorem getKey_artpToDict_cutoff (p : Artp) :
    getKey (artpToDict p) "snd_cutoff" = .error "KeyError: snd_cutoff" := rfl

theorem getKey_artpToDict_sndStart (p : Artp) :
    getKey (artpToDict p) "snd_start" = .ok (.ref p.snd2Site p.snd2Logical p.sndId) := rfl

/-- C10: every per-phoneme dict entry produced by the parser conversion
stores the second `SND ` reference under `snd_start` and has no
`snd_cutoff` key, so the pack loop's `art_item["snd_cutoff"]` lookup
raises `KeyError` on its very first item — after streaming that item's
EpR chunks but before writing any SND chunk. -/
theorem packLoop_sndCutoff_missing (arts : List (Nat × Art)) (key : List Nat)
    (dicts : List (List (String × DVal))) (d : List (String × DVal))
    (hmem : (key, dicts) ∈ artDictEntries arts) (hd : d ∈ dicts)
    (artBytes : List Nat) (ds : List (List (String × DVal)))
    (hEpr : (packEprLoop artBytes (eprOf d)).2 = true) :
    getKey d "snd_cutoff" = .error "KeyError: snd_cutoff" ∧
    getKey d "snd_start" ≠ .error "KeyError: snd_start" ∧
    packArtLoop artBytes (d :: ds) =
      ((packEprLoop artBytes (eprOf d)).1, [], .error "KeyError: snd_cutoff") := by
  obtain ⟨p, rfl⟩ := dictShape_artDictEntries arts (key, dicts) hmem d hd
  refine ⟨getKey_artpToDict_cutoff p,
    by rw [getKey_artpToDict_sndStart p]; exact fun hcon => Except.noConfusion hcon, ?_⟩
  have heprOf : eprOf (artpToDict p) = p.epr := rfl
  have hitem : packArtItem artBytes (artpToDict p) =
      ((packEprLoop artBytes p.epr).1, .error "KeyError: snd_cutoff") := by
    have h1 : getKey (artpToDict p) "epr" = .ok (.eprL p.epr) := rfl
    have h2 : getKey (artpToDict p) "snd" = .ok (.ref p.sndSite p.sndLogical p.sndId) := rfl
    rw [packArtItem, h1]
    rw [heprOf] at hEpr
    simp only [hEpr, Bool.true_eq_false, if_false]
    rw [getKey_artpToDict_cutoff p, h2]
  rw [packArtLoop, hitem]
  rw [heprOf]

/-! ## C5: recorded FRM2 sites re-read to their recorded offsets

The site-recording loop stores, for each EpR reference, the current
position and the u64 read there; the soundness of every recorded site
is propagated through each section parser. -/

theorem readEprList_ok (buf : List Nat) :
    ∀ (n pos : Nat), ∀ pr ∈ (readEprList buf pos n).1, readU64 buf pr.1 = pr.2 := by
  intro n
  induction n with
  | zero =>
    intro pos pr hpr
    simp [readEprList] at hpr
  | succ k ih =>
    intro pos pr hpr
    rw [readEprList] at hpr
    rcases List.mem_cons.mp hpr with h | h
    · rw [h]
    · exact ih (pos + 8) pr h

theorem readStap_epr (buf : List Nat) (p0 : Nat) (r : (List Nat × Stap) × Nat)
    (h : readStap buf p0 = some r) :
    ∀ pr ∈ r.1.2.epr, readU64 buf pr.1 = pr.2 := by
  simp only [readStap] at h
  split_ifs at h with hc
  rw [Option.some_inj] at h
  subst h
  intro pr hpr
  simp only at hpr
  exact readEprList_ok buf _ _ pr hpr

theorem readStaps_epr (buf : List Nat) :
    ∀ (n pos : Nat) (acc : List (List Nat × Stap)) (r : List (List Nat × Stap) × Nat),
      (∀ e ∈ acc, ∀ pr ∈ e.2.epr, readU64 buf pr.1 = pr.2) →
      readStaps buf n pos acc = some r →
      ∀ e ∈ r.1, ∀ pr ∈ e.2.epr, readU64 buf pr.1 = pr.2 := by
  intro n
  induction n with
  | zero =>
    intro pos acc r hacc h
    rw [readStaps, Option.some_inj] at h
    subst h
    exact hacc
  | succ k ih =>
    intro pos acc r hacc h
    rw [readStaps] at h
    rcases hs : readStap buf pos with _ | ⟨⟨idx, st⟩, p2⟩
    · simp only [hs] at h
      exact Option.noConfusion h
    · simp only [hs] at h
      split_ifs at h with hdup
      refine ih p2 (acc ++ [(idx, st)]) r ?_ h
      intro e he
      rcases List.mem_append.mp he with h1 | h1
      · exact hacc e h1
      · have he2 : e = (idx, st) := by simpa using h1
        rw [he2]
        exact readStap_epr buf pos ((idx, st), p2) hs

theorem readStau_epr (buf : List Nat) (q : Nat) (r : (Nat × Stau) × Nat)
    (h : readStau buf q = some r) :
    ∀ e ∈ r.1.2.stap, ∀ pr ∈ e.2.epr, readU64 buf pr.1 = pr.2 := by
  simp only [readStau] at h
  split_ifs at h with hc
  rcases hs : readStaps buf (readU32 buf (q + 36)) (q + 40) [] with _ | ⟨staps, p2⟩
  · simp only [hs] at h
    exact Option.noConfusion h
  · simp only [hs] at h
    rw [Option.some_inj] at h
    subst h
    intro e he
    simp only at he
    rw [mem_sortAssoc] at he
    exact readStaps_epr buf _ _ [] (staps, p2)
      (by intro e h1; exact absurd h1 (List.not_mem_nil e)) hs e he

theorem readStaus_epr (buf : List Nat) :
    ∀ (n pos : Nat) (acc : List (Nat × Stau)) (r : List (Nat × Stau) × Nat),
      (∀ u ∈ acc, ∀ e ∈ u.2.stap, ∀ pr ∈ e.2.epr, readU64 buf pr.1 = pr.2) →
      readStaus buf n pos acc = some r →
      ∀ u ∈ r.1, ∀ e ∈ u.2.stap, ∀ pr ∈ e.2.epr, readU64 buf pr.1 = pr.2 := by
  intro n
  induction n with
  | zero =>
    intro pos acc r hacc h
    rw [readStaus, Option.some_inj] at h
    subst h
    exact hacc
  | succ k ih =>
    intro pos acc r hacc h
    rw [readStaus] at h
    rcases hs : readStau buf pos with _ | ⟨⟨i, u⟩, p2⟩
    · simp only [hs] at h
      exact Option.noConfusion h
    · simp only [hs] at h
      refine ih p2 (assocSet acc i u) r ?_ h
      intro u2 hu2
      rcases mem_assocSet acc i u u2 hu2 with h1 | h1
      · rw [h1]
        exact readStau_epr buf pos ((i, u), p2) hs
      · exact hacc u2 h1

theorem readSta_epr (buf : List Nat) (pos : Nat) (r : List (Nat × Stau) × Nat)
    (h : readSta buf pos = some r) :
    ∀ pr ∈ staEprSites r.1, readU64 buf pr.1 = pr.2 := by
  simp only [readSta] at h
  split_ifs at h with hc
  rcases hs : readStaus buf (readU32 buf (pos + 52)) (pos + 56) [] with _ | ⟨staus, p2⟩
  · simp only [hs] at h
    exact Option.noConfusion h
  · simp only [hs] at h
    split_ifs at h with ht
    rw [Option.some_inj] at h
    subst h
    intro pr hpr
    simp only [staEprSites] at hpr
    rcases List.mem_flatMap.mp hpr with ⟨u, hu, hpr2⟩
    rcases List.mem_flatMap.mp hpr2 with ⟨e, he, hpr3⟩
    rw [mem_sortAssoc] at hu
    exact readStaus_epr buf _ _ [] (staus, p2)
      (by intro u2 h1; exact absurd h1 (List.not_mem_nil u2)) hs u hu e he pr hpr3

theorem readVqmp_epr (buf : List Nat) (r0 : Nat) (r : (Nat × Vqmp) × Nat)
    (h : readVqmp buf r0 = some r) :
    ∀ pr ∈ r.1.2.epr, readU64 buf pr.1 = pr.2 := by
  simp only [readVqmp] at h
  split_ifs at h with hc
  split at h
  · exact Option.noConfusion h
  · rw [Option.some_inj] at h
    subst h
    intro pr hpr
    simp only at hpr
    exact readEprList_ok buf _ _ pr hpr

theorem readVqmps_epr (buf : List Nat) :
    ∀ (n pos : Nat) (acc : List (Nat × Vqmp)) (r : List (Nat × Vqmp) × Nat),
      (∀ v ∈ acc, ∀ pr ∈ v.2.epr, readU64 buf pr.1 = pr.2) →
      readVqmps buf n pos acc = some r →
      ∀ v ∈ r.1, ∀ pr ∈ v.2.epr, readU64 buf pr.1 = pr.2 := by
  intro n
  induction n with
  | zero =>
    intro pos acc r hacc h
    rw [readVqmps, Option.some_inj] at h
    subst h
    exact hacc
  | succ k ih =>
    intro pos acc r hacc h
    rw [readVqmps] at h
    rcases hs : readVqmp buf pos with _ | ⟨⟨i, v⟩, p2⟩
    · simp only [hs] at h
      exact Option.noConfusion h
    · simp only [hs] at h
      refine ih p2 (assocSet acc i v) r ?_ h
      intro v2 hv2
      rcases mem_assocSet acc i v v2 hv2 with h1 | h1
      · rw [h1]
        exact readVqmp_epr buf pos ((i, v), p2) hs
      · exact hacc v2 h1

theorem readVqm_epr (buf : List Nat) (pos : Nat) (r : List (Nat × Vqmp) × Nat)
    (h : readVqm buf pos = some r) :
    ∀ pr ∈ vqmEprSites r.1, readU64 buf pr.1 = pr.2 := by
  simp only [readVqm] at h
  split_ifs at h with hc
  rcases hs : readVqmps buf (readU32 buf (pos + 52)) (pos + 60) [] with _ | ⟨entries, p2⟩
  · simp only [hs] at h
    exact Option.noConfusion h
  · simp only [hs] at h
    split_ifs at h with ht
    rw [Option.some_inj] at h
    subst h
    intro pr hpr
    simp only [vqmEprSites] at hpr
    rcases List.mem_flatMap.mp hpr with ⟨v, hv, hpr2⟩
    exact readVqmps_epr buf _ _ [] (entries, p2)
      (by intro v2 h1; exact absurd h1 (List.not_mem_nil v2)) hs v hv pr hpr2

theorem readArtpCont_fields (buf : List Nat) (p0 a : Nat) (epr : List (Nat × Nat) × Nat)
    (r : Artp × Nat) (h : readArtpCont buf p0 a epr = some r) :
    r.1.epr = epr.1 ∧ r.1.sndSite = epr.2 + 10 ∧
    r.1.sndLogical = (readU64 buf (epr.2 + 10) : Int) - 0x12 ∧
    r.1.snd2Site = epr.2 + 18 ∧
    r.1.snd2Logical = (readU64 buf (epr.2 + 18) : Int) - 0x12 := by
  simp only [readArtpCont] at h
  split at h
  · exact Option.noConfusion h
  · split_ifs at h with h4 h5
    rw [Option.some_inj] at h
    subst h
    exact ⟨rfl, rfl, rfl, rfl, rfl⟩

theorem readArtp_ok (buf : List Nat) (p0 : Nat) (r : Artp × Nat)
    (h : readArtp buf p0 = some r) :
    (∀ pr ∈ r.1.epr, readU64 buf pr.1 = pr.2) ∧
    r.1.sndLogical = (readU64 buf r.1.sndSite : Int) - 0x12 ∧
    r.1.snd2Logical = (readU64 buf r.1.snd2Site : Int) - 0x12 := by
  simp only [readArtp] at h
  split_ifs at h with hc hA hB
  · obtain ⟨he, hs1, hl1, hs2, hl2⟩ := readArtpCont_fields _ _ _ _ _ h
    refine ⟨?_, ?_, ?_⟩
    · intro pr hpr
      rw [he] at hpr
      exact readEprList_ok buf _ _ pr hpr
    · rw [hl1, hs1]
    · rw [hl2, hs2]
  · obtain ⟨he, hs1, hl1, hs2, hl2⟩ := readArtpCont_fields _ _ _ _ _ h
    refine ⟨?_, ?_, ?_⟩
    · intro pr hpr
      rw [he] at hpr
      exact readEprList_ok buf _ _ pr hpr
    · rw [hl1, hs1]
    · rw [hl2, hs2]

theorem readArtps_epr (buf : List Nat) :
    ∀ (n pos : Nat) (acc : List (Nat × Artp)) (r : List (Nat × Artp) × Nat),
      (∀ e ∈ acc, ∀ pr ∈ e.2.epr, readU64 buf pr.1 = pr.2) →
      readArtps buf n pos acc = some r →
      ∀ e ∈ r.1, ∀ pr ∈ e.2.epr, readU64 buf pr.1 = pr.2 := by
  intro n
  induction n with
  | zero =>
    intro pos acc r hacc h
    rw [readArtps, Option.some_inj] at h
    subst h
    exact hacc
  | succ k ih =>
    intro pos acc r hacc h
    rw [readArtps] at h
    rcases hs : readArtp buf pos with _ | ⟨p, p2⟩
    · simp only [hs] at h
      exact Option.noConfusion h
    · simp only [hs] at h
      split_ifs at h with hdup
      refine ih p2 (acc ++ [(p.artpIdx, p)]) r ?_ h
      intro e he
      rcases List.mem_append.mp he with h1 | h1
      · exact hacc e h1
      · have he2 : e = (p.artpIdx, p) := by simpa using h1
        rw [he2]
        exact (readArtp_ok buf pos (p, p2) hs).1

theorem mem_artListEprSites : ∀ (l : List (Nat × Art)) (pr : Nat × Nat),
    pr ∈ artListEprSites l ↔ ∃ s, s ∈ l ∧ pr ∈ Art.eprSites s.2 := by
  intro l
  induction l with
  | nil =>
    intro pr
    simp [artListEprSites]
  | cons x t ih =>
    intro pr
    rcases x with ⟨k, a⟩
    rw [artListEprSites, List.mem_append, ih]
    constructor
    · rintro (h | ⟨sa, hs, hp⟩)
      · exact ⟨(k, a), List.mem_cons_self _ _, h⟩
      · exact ⟨sa, List.mem_cons_of_mem _ hs, hp⟩
    · rintro ⟨sa, hs, hp⟩
      rcases List.mem_cons.mp hs with h1 | h1
      · subst h1
        exact Or.inl hp
      · exact Or.inr ⟨sa, h1, hp⟩

theorem artFuel_epr (buf : List Nat) : ∀ fuel : Nat,
    (∀ (pos : Nat) (r : (Nat × Art) × Nat), readArtBlock buf fuel pos = some r →
      ∀ pr ∈ Art.eprSites r.1.2, readU64 buf pr.1 = pr.2) ∧
    (∀ (n pos : Nat) (accU : List (Nat × Artu)) (accA : List (Nat × Art))
        (r : (List (Nat × Artu) × List (Nat × Art)) × Nat),
      (∀ u ∈ accU, ∀ pr ∈ Artu.eprSites u.2, readU64 buf pr.1 = pr.2) →
      (∀ sa ∈ accA, ∀ pr ∈ Art.eprSites sa.2, readU64 buf pr.1 = pr.2) →
      readArtChildren buf fuel n pos accU accA = some r →
      (∀ u ∈ r.1.1, ∀ pr ∈ Artu.eprSites u.2, readU64 buf pr.1 = pr.2) ∧
      (∀ sa ∈ r.1.2, ∀ pr ∈ Art.eprSites sa.2, readU64 buf pr.1 = pr.2)) := by
  intro fuel
  induction fuel with
  | zero =>
    constructor
    · intro pos r h
      rw [readArtBlock] at h
      exact Option.noConfusion h
    · intro n pos accU accA r _ _ h
      rw [readArtChildren] at h
      exact Option.noConfusion h
  | succ f ih =>
    constructor
    · intro pos r h
      rw [readArtBlock] at h
      split_ifs at h with hc
      rcases hs : readArtChildren buf f (readU32 buf (pos + 16)) (pos + 20) [] []
        with _ | ⟨⟨artus, subs⟩, p2⟩
      · simp only [hs] at h
        exact Option.noConfusion h
      · simp only [hs] at h
        rw [Option.some_inj] at h
        subst h
        obtain ⟨hUr, hAr⟩ := ih.2 _ _ [] [] _
          (by intro u hu; exact absurd hu (List.not_mem_nil u))
          (by intro sa hsa; exact absurd hsa (List.not_mem_nil sa)) hs
        intro pr hpr
        simp only [Art.eprSites] at hpr
        rcases List.mem_append.mp hpr with h1 | h1
        · rcases List.mem_flatMap.mp h1 with ⟨u, hu, hp⟩
          rw [mem_sortAssoc] at hu
          exact hUr u hu pr hp
        · rw [mem_artListEprSites] at h1
          rcases h1 with ⟨sa, hsa, hp⟩
          rw [mem_sortAssoc] at hsa
          exact hAr sa hsa pr hp
    · intro n pos accU accA r hU hA h
      cases n with
      | zero =>
        rw [readArtChildren, Option.some_inj] at h
        subst h
        exact ⟨hU, hA⟩
      | succ m =>
        rw [readArtChildren] at h
        split_ifs at h with h0 hT hTU hcond
        · -- nested ART child
          rcases hs : readArtBlock buf f (pos + 12) with _ | ⟨⟨si, sa⟩, p2⟩
          · simp only [hs] at h
            exact Option.noConfusion h
          · simp only [hs] at h
            refine ih.2 _ _ _ _ _ hU ?_ h
            intro sa2 hsa2
            rcases mem_assocSet accA si sa sa2 hsa2 with h1 | h1
            · rw [h1]
              exact ih.1 (pos + 12) ((si, sa), p2) hs
            · exact hA sa2 h1
        · -- ARTu child
          rcases ha : readArtps buf (readU32 buf (pos + 44)) (pos + 48) []
            with _ | ⟨artps, p2⟩
          · simp only [ha] at h
            exact Option.noConfusion h
          · simp only [ha] at h
            refine ih.2 _ _ _ _ _ ?_ hA h
            intro u2 hu2
            rcases mem_assocSet accU (readU32 buf (pos + 24)) _ u2 hu2 with h1 | h1
            · rw [h1]
              intro pr hpr
              simp only [Artu.eprSites] at hpr
              rcases List.mem_flatMap.mp hpr with ⟨e, he, hp⟩
              rw [mem_sortAssoc] at he
              exact readArtps_epr buf _ _ [] (artps, p2)
                (by intro e2 h2; exact absurd h2 (List.not_mem_nil e2)) ha e he pr hp
            · exact hU u2 h1

theorem readArtSection_epr (buf : List Nat) :
    ∀ (fuel pos : Nat) (acc : List (Nat × Art)) (r : List (Nat × Art) × Nat),
      (∀ sa ∈ acc, ∀ pr ∈ Art.eprSites sa.2, readU64 buf pr.1 = pr.2) →
      readArtSection buf fuel pos acc = some r →
      ∀ sa ∈ r.1, ∀ pr ∈ Art.eprSites sa.2, readU64 buf pr.1 = pr.2 := by
  intro fuel
  induction fuel with
  | zero =>
    intro pos acc r _ h
    rw [readArtSection] at h
    exact Option.noConfusion h
  | succ f ih =>
    intro pos acc r hacc h
    simp only [readArtSection] at h
    split_ifs at h with hterm hstr htag
    · rw [Option.some_inj] at h
      subst h
      exact hacc
    · rcases hs : readArtBlock buf f (pos + 12) with _ | ⟨⟨i, a⟩, p2⟩
      · simp only [hs] at h
        exact Option.noConfusion h
      · simp only [hs] at h
        refine ih p2 (assocSet acc i a) r ?_ h
        intro sa hsa
        rcases mem_assocSet acc i a sa hsa with h1 | h1
        · rw [h1]
          exact (artFuel_epr buf f).1 (pos + 12) ((i, a), p2) hs
        · exact hacc sa h1

theorem readArt_epr (buf : List Nat) (fuel pos : Nat) (r : List (Nat × Art) × Nat)
    (h : readArt buf fuel pos = some r) :
    ∀ pr ∈ artEprSites r.1, readU64 buf pr.1 = pr.2 := by
  simp only [readArt] at h
  split_ifs at h with hc
  rcases hs : readArtSection buf fuel (pos + 28) [] with _ | ⟨arts, p2⟩
  · simp only [hs] at h
    exact Option.noConfusion h
  · simp only [hs] at h
    rw [Option.some_inj] at h
    subst h
    intro pr hpr
    simp only [artEprSites] at hpr
    rw [mem_artListEprSites] at hpr
    rcases hpr with ⟨sa, hsa, hp⟩
    rw [mem_sortAssoc] at hsa
    exact readArtSection_epr buf fuel (pos + 28) [] (arts, p2)
      (by intro sa2 h2; exact absurd h2 (List.not_mem_nil sa2)) hs sa hsa pr hp

/-- C5: for every catalogue produced by the section parsers, every
recorded FRM2 (EpR) cross-reference site of a stationary, articulation,
or VQM entry re-reads from the index buffer, as a little-endian u64 at
the recorded site position, to exactly the recorded logical offset. -/
theorem eprSites_sound (buf : List Nat) :
    (∀ (pos : Nat) (r : List (Nat × Stau) × Nat), readSta buf pos = some r →
      ∀ pr ∈ staEprSites r.1, readU64 buf pr.1 = pr.2) ∧
    (∀ (fuel pos : Nat) (r : List (Nat × Art) × Nat), readArt buf fuel pos = some r →
      ∀ pr ∈ artEprSites r.1, readU64 buf pr.1 = pr.2) ∧
    (∀ (pos : Nat) (r : List (Nat × Vqmp) × Nat), readVqm buf pos = some r →
      ∀ pr ∈ vqmEprSites r.1, readU64 buf pr.1 = pr.2) :=
  ⟨fun pos r h => readSta_epr buf pos r h,
   fun fuel pos r h => readArt_epr buf fuel pos r h,
   fun pos r h => readVqm_epr buf pos r h⟩

/-- Witness: the demonstration section buffers parse, and their
recorded EpR sites re-read to the recorded offsets. -/
theorem eprSites_sound_witness :
    readU64 demoStaBuf 212 = 0x1234 ∧ readU64 demoArtBuf 216 = 0xCD ∧
    readU64 demoVqmBuf 126 = 0xAB :=
  ⟨(eprSites_sound demoStaBuf).1 0 (demoStaParsed, 288) rfl (212, 0x1234) (by decide),
   (eprSites_sound demoArtBuf).2.1 32 0 (demoArtCat, 291) rfl (216, 0xCD) (by decide),
   (eprSites_sound demoVqmBuf).2.2 0 (demoVqmParsed, 189) rfl (126, 0xAB) (by decide)⟩

/-! ## C1: the ART SND `0x12` bias round trip -/

/-- C1: the articulation parser records the `SND ` logical offset as
the stored u64 minus `0x12`, and when the pack path patches such a site
it stores the new physical chunk start plus `0x12` (and the second
reference right after it), so re-reading the patched site with the
parser's bias yields exactly the new physical chunk start. -/
theorem artSnd_bias_roundtrip (buf : List Nat) (p0 : Nat) (r : Artp × Nat)
    (h : readArtp buf p0 = some r)
    (ddi : List Nat) (phys : Nat) (delta : Int) (out : List Nat)
    (hsite : r.1.sndSite + 16 ≤ ddi.length)
    (hout : packPatchArtSnd ddi r.1.sndSite phys delta = some out) :
    r.1.sndLogical = artSndLogicalAt buf r.1.sndSite ∧
    artSndLogicalAt out r.1.sndSite = (phys : Int) := by
  constructor
  · rw [(readArtp_ok buf p0 r h).2.1, artSndLogicalAt]
  · simp only [packPatchArtSnd] at hout
    split_ifs at hout with hcond
    rw [Option.some_inj] at hout
    subst hout
    obtain ⟨hv, _, _⟩ := hcond
    have hw1len : r.1.sndSite + (natToLE 8 (phys + 0x12)).length ≤ ddi.length := by
      rw [natToLE_length]
      omega
    have hlen1 : (writeBytesAt ddi r.1.sndSite (natToLE 8 (phys + 0x12))).length =
        ddi.length := writeBytesAt_length hw1len
    have houter : readBytesAt
        (writeBytesAt (writeBytesAt ddi r.1.sndSite (natToLE 8 (phys + 0x12)))
          (r.1.sndSite + 8)
          (natToLE 8 (((phys + 0x12 : Nat) : Int) + delta).toNat))
        r.1.sndSite 8 =
        readBytesAt (writeBytesAt ddi r.1.sndSite (natToLE 8 (phys + 0x12)))
          r.1.sndSite 8 := by
      apply readBytesAt_writeBytesAt_disjoint
      · rw [natToLE_length, hlen1]
        omega
      · exact Or.inl (by omega)
    have hinner : readBytesAt (writeBytesAt ddi r.1.sndSite (natToLE 8 (phys + 0x12)))
        r.1.sndSite 8 = natToLE 8 (phys + 0x12) := by
      have := readBytesAt_writeBytesAt ddi (natToLE 8 (phys + 0x12)) r.1.sndSite hw1len
      rwa [natToLE_length] at this
    rw [artSndLogicalAt, readU64, houter, hinner, leVal_natToLE]
    · push_cast
      omega
    · have h256 : (256 : Nat) ^ 8 = 2 ^ 64 := by norm_num
      rw [h256]
      exact hv

set_option maxRecDepth 8192 in
/-- Witness: the demonstration `ARTp` record and a concrete patch of
its site inside `demoArtBuf` (site 126, new chunk start `0x2000`). -/
theorem artSnd_bias_roundtrip_witness :
    demoArtpParsed.sndLogical = artSndLogicalAt demoArtpBytes demoArtpParsed.sndSite ∧
    artSndLogicalAt demoPatched demoArtpParsed.sndSite = (0x2000 : Int) :=
  artSnd_bias_roundtrip demoArtpBytes 0 (demoArtpParsed, 157) rfl demoArtBuf 0x2000 0x800
    demoPatched (by decide) rfl

/-! ## Remaining witnesses -/

/-- Witness for the C2 statement: the concrete no-VQM splice on
`demoMixSrc` (footer at 30, its only occurrence, DBV count at offset
0x18) and the concrete has-VQM abort on the answer `"y"`. -/
theorem mixinsVqm_correct_witness :
    (demoMixOut.length = demoMixSrc.length + demoImg.length ∧
      readBytesAt demoMixOut 30 demoImg.length = demoImg ∧
      readBytesAt demoMixOut (30 + demoImg.length) 9 = ddiFooter ∧
      readU32 demoMixOut 0x18 = readU32 demoMixSrc 0x18 + 1) ∧
    mixinsVqmResult [121] demoMixSrc (some (30, 39)) 0 demoImg = none := by
  have huniq : ∀ j, readBytesAt demoMixSrc j 9 = ddiFooter → j = 30 := by
    intro j hj
    have hl := congrArg List.length hj
    rw [readBytesAt_length] at hl
    have hlen : demoMixSrc.length = 39 := by decide
    rw [hlen] at hl
    simp only [ddiFooter, List.length_cons, List.length_nil] at hl
    have hj31 : j < 31 := by omega
    interval_cases j <;> first
      | rfl
      | (exfalso; revert hj; decide)
  constructor
  · exact mixinsVqm_correct.1 [] demoMixSrc demoImg 0 30 demoMixOut rfl huniq
      (by decide) (by decide) rfl
  · exact mixinsVqm_correct.2 [121] demoMixSrc demoImg 30 39 0

/-- Witness for the C4 frame statement: STA range `[28, 29)` and ART
range `[29, 30)` of the concrete recipient are untouched, and the tail
from the footer is shifted by the image length. -/
theorem mixinsSplice_frame_witness :
    demoMixOut.length = demoMixSrc.length + demoImg.length ∧
    readBytesAt demoMixOut 28 1 = readBytesAt demoMixSrc 28 1 ∧
    readBytesAt demoMixOut 29 1 = readBytesAt demoMixSrc 29 1 ∧
    demoMixOut[29]? = demoMixSrc[29]? ∧
    demoMixOut[30 + demoImg.length]? = demoMixSrc[30]? := by
  obtain ⟨h1, h2, h3, h4, h5⟩ := mixinsSplice_frame demoMixSrc demoImg 0 30 28 29 29 30
    demoMixOut rfl (by decide) (by decide) (by decide) (by decide) (by decide) (by decide)
    (by decide) rfl
  exact ⟨h1, h2, h3, h4 29 (by decide) (Or.inr (by decide)), h5 30 (by decide)⟩

/-- Witness for the C10 statement on the converted demonstration
catalogue and a chunk file whose EpR streaming succeeds. -/
theorem packLoop_sndCutoff_missing_witness :
    getKey demoDict "snd_cutoff" = .error "KeyError: snd_cutoff" ∧
    getKey demoDict "snd_start" ≠ .error "KeyError: snd_start" ∧
    packArtLoop demoArtChunk [demoDict] =
      ((packEprLoop demoArtChunk (eprOf demoDict)).1, [], .error "KeyError: snd_cutoff") :=
  packLoop_sndCutoff_missing demoArtCat [97, 32, 98] [demoDict] demoDict
    (by decide) (by decide) demoArtChunk [] (by decide)

end DdbTools
